import Mathlib

/-!
Verification development for the swupd-client bundle manager
(src/src/bundle.c).  The definitions below are a shallow embedding of the
bundle-removal and bundle-installation pipelines of that file; helpers that
live in parts of the repository not included under src/ (src/lib/list.c,
the manifest consolidator, the fetcher, the staging primitive) are modelled
from the specification and carry a doc comment saying so.
-/

set_option maxRecDepth 4000

namespace Swupd

/-- Subset of `enum swupd_code` (declared in the repository's swupd-error
header, which is not under src/); the constructors mirror exactly the codes
used by src/src/bundle.c.  `SWUPD_OK` is 0 in C.  `SWUPD_COULDNT_DOWNLOAD_FILE`
stands for the positive return of `download_fullfiles` (bundle.c line 956-959)
and `SWUPD_STAGE_FAILURE` for the nonzero return of `do_staging`
(bundle.c line 1041-1044); both are opaque nonzero codes in bundle.c. -/
inductive SwupdCode where
  | SWUPD_OK
  | SWUPD_CURRENT_VERSION_UNKNOWN
  | SWUPD_COULDNT_LOAD_MOM
  | SWUPD_COULDNT_LOAD_MANIFEST
  | SWUPD_RECURSE_MANIFEST
  | SWUPD_INVALID_BUNDLE
  | SWUPD_BUNDLE_NOT_TRACKED
  | SWUPD_REQUIRED_BUNDLE_ERROR
  | SWUPD_DISK_SPACE_ERROR
  | SWUPD_COULDNT_REMOVE_FILE
  | SWUPD_COULDNT_DOWNLOAD_FILE
  | SWUPD_STAGE_FAILURE
  deriving DecidableEq

open SwupdCode

/-- One file record of a manifest (`struct file`).  `staging` is the name of
the staged sidecar copy (NULL in C when the record was not staged by
`do_staging`); `is_ignored` models the `ignore(file)` predicate of the update
machinery (not under src/), which consults per-record flags. -/
structure SwupdFile where
  filename : String
  hash : String
  last_change : Nat := 0
  is_deleted : Bool := false
  is_dir : Bool := false
  do_not_update : Bool := false
  is_ignored : Bool := false
  staging : Option String := none
  deriving DecidableEq

/-- A parsed bundle manifest (`struct manifest`), restricted to the fields
bundle.c reads: component name, include lists, content size and file records. -/
structure Manifest where
  component : String
  includes : List String := []
  optional : List String := []
  contentsize : Nat := 0
  files : List SwupdFile := []
  deriving DecidableEq

/-- Observable filesystem actions of the two pipelines, in program order:
tracking-file creation (`track_installed`), tracking-file removal
(`remove_tracked`), a fetcher invocation (pack or fullfile download), removal
of a corrupt staged copy (pre-flight loop), staging a file (`do_staging`),
renaming a sidecar to its final name (`rename_staged_file_to_final`), the
final `sync()`, and unlinking a target-tree path (`remove_files_from_fs`). -/
inductive Ev where
  | track (b : String)
  | untrack (b : String)
  | fetch
  | unlinkStaged (h : String)
  | stage (p : String)
  | rename (p : String)
  | sync
  | unlinkFs (p : String)
  deriving DecidableEq

/-- C `strcmp`, restricted to the information its callers use: zero exactly
on equal strings, a sign depending on the lexicographic order otherwise (the
order is written on the character lists so that the kernel can evaluate it). -/
def strcmp (a b : String) : Int :=
  if a = b then 0 else if a.data < b.data then -1 else 1

/-- src/src/bundle.c `filter_files_to_delete` (lines 491-519): comparator for
the unlink filter.  A return of 0 ("match") removes record `a` from the list
of files to be deleted: either `a` is itself marked deleted, or a kept record
`b` with the same filename is not deleted (the file is still needed). -/
def filter_files_to_delete (a b : SwupdFile) : Int :=
  if a.is_deleted then 0
  else
    let ret := strcmp a.filename b.filename
    if ret ≠ 0 then ret
    else if ¬ b.is_deleted then 0
    else -1

/-- Modelled from the spec: `list_filter_common_elements` lives in
src/lib/list.c, which is not under src/.  Per spec §4.3
(`files_to_unlink`), elements of `l1` that match (comparator returns 0) some
element of `l2` are filtered out; the remaining elements are returned. -/
def list_filter_common_elements (l1 l2 : List SwupdFile)
    (cmp : SwupdFile → SwupdFile → Int) : List SwupdFile :=
  l1.filter (fun a => ! l2.any (fun b => cmp a b == 0))

/-- Modelled from the spec (§4.3): collision resolution between two records
with the same path.  A non-deleted record wins over a deleted one; otherwise
the record with the higher `last_change` wins. -/
def resolveCollision (a b : SwupdFile) : SwupdFile :=
  if a.is_deleted ∧ ¬ b.is_deleted then b
  else if b.is_deleted ∧ ¬ a.is_deleted then a
  else if b.last_change > a.last_change then b else a

/-- Worker for `consolidateRecords`: the Nat argument is a structural bound
on the recursion depth (the list length only shrinks), so that the kernel can
evaluate the function on concrete inputs. -/
def consolidateGo : Nat → List SwupdFile → List SwupdFile
  | 0, _ => []
  | _ + 1, [] => []
  | n + 1, f :: rest =>
    (rest.filter (fun g => g.filename == f.filename)).foldl resolveCollision f ::
      consolidateGo n (rest.filter (fun g => g.filename != f.filename))

/-- Modelled from the spec (§4.3 `consolidate`): resolve same-path collisions
in a concatenated record list, keeping one record per path (the collision
winner).  The spec's sort-by-path only fixes the output order, which no
caller in bundle.c depends on; the deduplication-by-path and the collision
rule are what this definition captures. -/
def consolidateRecords (l : List SwupdFile) : List SwupdFile :=
  consolidateGo l.length l

/-- Modelled from the spec (§4.3): `consolidate_files_from_bundles` (manifest
consolidator, not under src/) concatenates the `files` of all manifests and
resolves same-path collisions. -/
def consolidate_files_from_bundles (ms : List Manifest) : List SwupdFile :=
  consolidateRecords (ms.map Manifest.files).flatten

/-- Modelled from the spec (§4.3): drops records whose type is deleted. -/
def filter_out_deleted_files (l : List SwupdFile) : List SwupdFile :=
  l.filter (fun f => ! f.is_deleted)

/-- Modelled from the spec (§4.3): returns the desired records whose
path+hash is not already present in the installed records. -/
def filter_out_existing_files (desired installed : List SwupdFile) :
    List SwupdFile :=
  desired.filter
    (fun f => ! installed.any (fun g => g.filename == f.filename && g.hash == f.hash))

/-- Modelled from the spec (§4.2): the reverse-dependency list is
deduplicated by name at the outermost call (`list_str_deduplicate`,
src/lib/list.c, not under src/). -/
def list_str_deduplicate (l : List String) : List String := l.dedup

/-- The unlink set computed by `remove_bundles` (bundle.c lines 664-683):
consolidate the removed bundles' files, then filter out everything the
consolidated kept set still needs, using `filter_files_to_delete`. -/
def files_to_unlink (removed kept : List Manifest) : List SwupdFile :=
  list_filter_common_elements (consolidate_files_from_bundles removed)
    (consolidate_files_from_bundles kept) filter_files_to_delete

/-- src/src/bundle.c `required_by` (lines 125-225), the list-building core:
walk every submanifest `b` other than the target; whenever `b.includes`
lists the target, record `b.component` (unless it is in `exclusions` — but
still recurse on it) and recurse with `b.component` as the new target.  The C
recursion is unbounded (manifest cycles are a server bug); `fuel` bounds it
here, and every theorem below holds for every fuel value it quantifies. -/
def required_by_walk : Nat → List Manifest → String → List String → List String
  | 0, _, _, _ => []
  | fuel + 1, subman, bundle_name, exclusions =>
    (subman.map (fun b =>
      if b.component = bundle_name then []
      else ((b.includes.filter (fun name => name == bundle_name)).map (fun _ =>
        (if exclusions.contains b.component then [] else [b.component]) ++
        required_by_walk fuel subman b.component exclusions)).flatten)).flatten

/-- src/src/bundle.c `required_by` at recursion depth 0: the collected
reverse dependencies, deduplicated by name (lines 201-203); the function's C
return value is the length of this list. -/
def required_by (fuel : Nat) (subman : List Manifest) (bundle_name : String)
    (exclusions : List String) : List String :=
  list_str_deduplicate (required_by_walk fuel subman bundle_name exclusions)

/-- Environment of one `remove_bundles` run, fixed while the per-bundle loop
executes: the bundle names listed in the MoM (`search_bundle_in_manifest`),
the bundles installed on the system (`is_installed_bundle`, which reads the
target tree that only changes after the loop), the `--force` flag and the
`required_by` fuel.  `submanifests` is `current_mom->submanifests` as loaded
by `recurse_manifest` before the loop (bundle.c line 582). -/
structure RemoveEnv where
  momBundles : List String
  installed : List String
  submanifests : List Manifest
  force : Bool := false
  fuel : Nat := 100

/-- Mutable state of the `remove_bundles` per-bundle loop
(bundle.c lines 542-551 and 589-662). -/
structure RemoveState where
  ret_code : SwupdCode
  bad : Nat
  total : Nat
  submanifests : List Manifest
  bundles_to_remove : List Manifest
  trace : List Ev
  deriving DecidableEq

/-- Modelled from the spec (§4.6 step 4): `list_move_item` (src/lib/list.c,
not under src/) moves the first manifest whose component equals `name` from
`src` to `dst`; when none matches, both lists are unchanged. -/
def list_move_item (name : String) (src dst : List Manifest) :
    List Manifest × List Manifest :=
  match src.find? (fun m => m.component == name) with
  | some m => (src.eraseP (fun m => m.component == name), m :: dst)
  | none => (src, dst)

/-- One `list_move_item` plus `remove_tracked` step of the `--force` branch
and of line 659-661: move the named manifest from the loop state's
`submanifests` to its `bundles_to_remove` and record the tracking-file
removal. -/
def remove_move_dep (s : RemoveState) (dep : String) : RemoveState :=
  let moved := list_move_item dep s.submanifests s.bundles_to_remove
  { s with submanifests := moved.1, bundles_to_remove := moved.2,
           trace := s.trace ++ [Ev.untrack dep] }

/-- The effect of `list_move_item` on the source list alone. -/
def erase_manifest (src : List Manifest) (name : String) : List Manifest :=
  (list_move_item name src []).1

/-- src/src/bundle.c `remove_bundles`, per-bundle loop (lines 589-662).
Each faulty bundle (os-core, invalid, not installed, required without
`--force`) overwrites `ret_code`, increments `bad` and is skipped; otherwise
the bundle's manifest (and, under `--force`, every reverse dependency's
manifest) is moved from `submanifests` to `bundles_to_remove` and its
tracking file removed.  `total` counts every processed bundle. -/
def remove_loop (env : RemoveEnv) : List String → RemoveState → RemoveState
  | [], st => st
  | bundle :: rest, st =>
    if bundle = "os-core" then
      remove_loop env rest { st with ret_code := SWUPD_REQUIRED_BUNDLE_ERROR,
                                     bad := st.bad + 1, total := st.total + 1 }
    else if ! env.momBundles.contains bundle then
      remove_loop env rest { st with ret_code := SWUPD_INVALID_BUNDLE,
                                     bad := st.bad + 1, total := st.total + 1 }
    else if ! env.installed.contains bundle then
      remove_loop env rest { st with ret_code := SWUPD_BUNDLE_NOT_TRACKED,
                                     bad := st.bad + 1, total := st.total + 1 }
    else
      let reqd := required_by env.fuel st.submanifests bundle (bundle :: rest)
      if reqd.length > 0 ∧ ¬ env.force then
        remove_loop env rest { st with ret_code := SWUPD_REQUIRED_BUNDLE_ERROR,
                                       bad := st.bad + 1, total := st.total + 1 }
      else
        let st' := if reqd.length > 0 then reqd.foldl remove_move_dep st else st
        let st'' := remove_move_dep st' bundle
        remove_loop env rest { st'' with total := st''.total + 1 }

/-- Result of one `remove_bundles` run: the returned code, the bad/total
counters it reports, the manifests kept in `current_mom->submanifests`, the
manifests moved to `bundles_to_remove`, the unlink set, and the event trace. -/
structure RemoveResult where
  code : SwupdCode
  bad : Nat
  total : Nat
  kept : List Manifest
  removed : List Manifest
  files_to_remove : List SwupdFile
  trace : List Ev
  deriving DecidableEq

/-- src/src/bundle.c `remove_bundles` (lines 540-719) from the per-bundle
loop on (the earlier steps — init, version and MoM load — are environment
loads captured by `RemoveEnv`): run the loop, and if any manifest was moved
to `bundles_to_remove`, consolidate kept and removed sets, filter the removal
candidates against the kept files (lines 664-683) and unlink the remainder
(`remove_files_from_fs`, one `unlinkFs` event per record). -/
def remove_bundles (env : RemoveEnv) (bundles : List String) : RemoveResult :=
  let st := remove_loop env bundles
    ⟨SWUPD_OK, 0, 0, env.submanifests, [], []⟩
  if st.bundles_to_remove.isEmpty then
    ⟨st.ret_code, st.bad, st.total, st.submanifests, [], [], st.trace⟩
  else
    let files := files_to_unlink st.bundles_to_remove st.submanifests
    ⟨st.ret_code, st.bad, st.total, st.submanifests, st.bundles_to_remove,
      files, st.trace ++ files.map (fun f => Ev.unlinkFs f.filename)⟩

/-- Specification-side mirror of `remove_loop`: the sequence of per-bundle
fault codes it assigns, in processing order.  The submanifest moves of
non-faulty iterations are replayed so that later `required_by` checks see the
same state the implementation sees. -/
def remove_fault_codes (env : RemoveEnv) :
    List String → List Manifest → List SwupdCode
  | [], _ => []
  | bundle :: rest, subman =>
    if bundle = "os-core" then
      SWUPD_REQUIRED_BUNDLE_ERROR :: remove_fault_codes env rest subman
    else if ! env.momBundles.contains bundle then
      SWUPD_INVALID_BUNDLE :: remove_fault_codes env rest subman
    else if ! env.installed.contains bundle then
      SWUPD_BUNDLE_NOT_TRACKED :: remove_fault_codes env rest subman
    else
      let reqd := required_by env.fuel subman bundle (bundle :: rest)
      if reqd.length > 0 ∧ ¬ env.force then
        SWUPD_REQUIRED_BUNDLE_ERROR :: remove_fault_codes env rest subman
      else
        let subman' :=
          if reqd.length > 0 then reqd.foldl erase_manifest subman else subman
        remove_fault_codes env rest (erase_manifest subman' bundle)

/-- The system-view tracking directory (`BUNDLES_DIR`), with an empty
`path_prefix`: the presence of `bundlesDirPath ++ name` in the target tree is
what `is_installed_bundle` tests. -/
def bundlesDirPath : String := "/usr/share/clear/bundles/"

/-- The marker path whose presence makes bundle `b` installed (system view). -/
def bundleMarker (b : String) : String := bundlesDirPath ++ b

/-- Mutable filesystem state seen by `install_bundles`: the set of target-tree
paths, the state-directory tracking records (`<state>/bundles/`), and the
content-addressed staging area (`<state>/staged/`); a staged entry is the
expected hash it is named after plus whether the bytes digest to that hash
(`verify_file`). -/
structure StagedEntry where
  hash : String
  good : Bool
  deriving DecidableEq

structure Sys where
  target : List String
  tracked : List String
  staged : List StagedEntry
  deriving DecidableEq

/-- src/src/bundle.c `is_installed_bundle` (lines 90-104): stat of
`path_prefix/BUNDLES_DIR/bundle_name`. -/
def is_installed_bundle (s : Sys) (b : String) : Bool :=
  s.target.contains (bundleMarker b)

/-- The bundle names present in the system tracking directory, read off the
target tree (used by `track_installed`'s seeding copy; written on the
character lists so that the kernel can evaluate it). -/
def systemBundleNames (s : Sys) : List String :=
  s.target.filterMap (fun p =>
    if bundlesDirPath.data.isPrefixOf p.data then
      some (String.mk (p.data.drop bundlesDirPath.data.length))
    else none)

/-- src/src/bundle.c `track_installed` (lines 438-489): if the state tracking
directory is empty or missing, seed it by copying the system tracking
directory minus the `.MoM` sentinel (lines 448-473); then create the
(empty) tracking file for `bundle_name` (open with O_CREAT, a no-op when it
exists).  One `track` event is recorded for the open call. -/
def track_installed (s : Sys) (tr : List Ev) (bundle_name : String) :
    Sys × List Ev :=
  let s1 :=
    if s.tracked.isEmpty then
      { s with tracked := (systemBundleNames s).filter (fun n => n != ".MoM") }
    else s
  let s2 :=
    if s1.tracked.contains bundle_name then s1
    else { s1 with tracked := bundle_name :: s1.tracked }
  (s2, tr ++ [Ev.track bundle_name])

/-- One `files` entry of the MoM (`struct file` used as a manifest
reference): the bundle name and, when `load_manifest` succeeds for it, the
parsed manifest.  `manifest = none` models a download/verify failure of
`load_manifest` (bundle.c lines 751-756). -/
structure BundleRef where
  name : String
  is_experimental : Bool := false
  manifest : Option Manifest := none

/-- Environment of one `install_bundles` run: the MoM's manifest references,
the relevant global options, and the external collaborators' outcomes —
available space at `<prefix>/usr/` (`get_available_space`; negative means the
query failed), whether `download_fullfiles` succeeds, whether `do_staging`
succeeds for a given filename, whether a path was staged out-of-band by
`verify_fix_path` (such records carry no staging name, bundle.c lines
1060-1067), and the recursion fuel for `add_subscriptions` (unbounded
recursion in C; manifest cycles are a server bug). -/
structure InstallEnv where
  momRefs : List BundleRef
  skip_optional_bundles : Bool := false
  skip_diskspace_check : Bool := false
  fs_free : Int := 0
  download_ok : Bool := true
  stage_ok : String → Bool := fun _ => true
  fix_path_staged : String → Bool := fun _ => false
  fuel : Nat := 100

/-- `search_bundle_in_manifest(mom, name)`: look the bundle up in the MoM's
file list (not under src/; per spec §4.1-4.2 a name lookup). -/
def search_bundle_in_manifest (env : InstallEnv) (b : String) :
    Option BundleRef :=
  env.momRefs.find? (fun r => r.name == b)

/-- Return bitmask of `add_subscriptions` (bundle.c lines 721-725):
bit 1 = an error happened, bit 2 = new subscriptions, bit 4 = bad name given;
modelled as three booleans. -/
structure AddSubRet where
  err : Bool := false
  new : Bool := false
  badname : Bool := false
  deriving DecidableEq

/-- Bitwise or of two `add_subscriptions` results (`ret |=` in C). -/
def AddSubRet.or (a b : AddSubRet) : AddSubRet :=
  ⟨a.err || b.err, a.new || b.new, a.badname || b.badname⟩

/-- src/src/bundle.c `add_subscriptions` (lines 726-791).  For each name:
missing from the MoM sets the badname bit and continues; an installed bundle
is skipped when `find_all` is false; a manifest load failure sets the error
bit and aborts the remaining list (`goto out`); an already-subscribed bundle
at recursion depth > 0 is skipped; otherwise the bundle is appended to the
subscriptions (setting the new bit when it was not subscribed) and the
includes — and, unless optional bundles are skipped, the optional includes —
are processed recursively.  The C recursion is unbounded (manifest cycles
are a server bug); `fuel` bounds it here, decreasing on every processed list
node so that the kernel can evaluate the function, and exhausted fuel
reports the error bit.  Every theorem below quantifies over the fuel, and
runs with enough fuel agree with the C control flow exactly. -/
def add_subscriptions (env : InstallEnv) (s : Sys) :
    Nat → List String → List String → Bool → Nat → AddSubRet × List String
  | 0, _, subs, _, _ => ({ err := true }, subs)
  | _ + 1, [], subs, _, _ => ({}, subs)
  | fuel + 1, bundle :: rest, subs, find_all, recursion =>
    match search_bundle_in_manifest env bundle with
    | none =>
      let r := add_subscriptions env s fuel rest subs find_all recursion
      ((AddSubRet.or { badname := true } r.1), r.2)
    | some file =>
      if ¬ find_all ∧ is_installed_bundle s bundle then
        add_subscriptions env s fuel rest subs find_all recursion
      else
        match file.manifest with
        | none => ({ err := true }, subs)
        | some manifest =>
          if subs.contains bundle ∧ recursion > 0 then
            add_subscriptions env s fuel rest subs find_all recursion
          else
            let first : AddSubRet × List String :=
              if subs.contains bundle then ({}, subs)
              else ({ new := true }, subs ++ [bundle])
            let afterInc : AddSubRet × List String :=
              if manifest.includes.isEmpty then first
              else
                let r := add_subscriptions env s fuel manifest.includes first.2
                  find_all (recursion + 1)
                (AddSubRet.or first.1 r.1, r.2)
            let afterOpt : AddSubRet × List String :=
              if env.skip_optional_bundles || manifest.optional.isEmpty then
                afterInc
              else
                let r := add_subscriptions env s fuel manifest.optional
                  afterInc.2 find_all (recursion + 1)
                (AddSubRet.or afterInc.1 r.1, r.2)
            let r := add_subscriptions env s fuel rest afterOpt.2
              find_all recursion
            (AddSubRet.or afterOpt.1 r.1, r.2)

/-- Modelled from the spec (§6, persisted layout): `read_subscriptions` (not
under src/) loads the set of installed bundles — the system tracking
directory's names — as subscriptions. -/
def read_subscriptions (env : InstallEnv) (s : Sys) : List String :=
  (env.momRefs.map (fun r => r.name)).filter (fun n => is_installed_bundle s n)

/-- Modelled from the spec (§4.1 `recurse`): fetch the manifest of every
subscribed component; NULL (here `none`) when a load fails. -/
def recurse_manifest (env : InstallEnv) (subs : List String) :
    Option (List Manifest) :=
  subs.mapM (fun n =>
    (search_bundle_in_manifest env n).bind (fun r => r.manifest))

/-- Sum of `manifest->contentsize` over a manifest list
(`get_manifest_list_contentsize`, not under src/; spec §4.4). -/
def get_manifest_list_contentsize (ms : List Manifest) : Int :=
  (ms.map (fun m => (m.contentsize : Int))).sum

/-- The disk-admission test of bundle.c lines 916: the C expression
`(bundle_size * 1.1) > fs_free || fs_free < 0`, with the 1.1 fudge factor
written exactly as the rational comparison `11 * bundle_size > 10 * fs_free`
(the C code computes it in double precision). -/
def disk_space_insufficient (bundle_size fs_free : Int) : Bool :=
  (11 * bundle_size > 10 * fs_free) || fs_free < 0

/-- Modelled from the spec (§6 Fetcher): the pack download of step 4 and the
fullfile download of step 5 place the needed payloads in the staging area;
freshly fetched entries digest correctly, and entries already present —
corrupt or not — are left alone.  Emits one `fetch` event; the Bool is false
on a transport error of `download_fullfiles`. -/
def fetch_missing_files (files : List SwupdFile) (s : Sys) : Sys :=
  let missing := ((files.map (fun f => f.hash)).filter
    (fun h => ! s.staged.any (fun e => e.hash == h))).dedup
  { s with staged := s.staged ++ missing.map (fun h => (⟨h, true⟩ : StagedEntry)) }

/-- Step 4 of `install_bundles` (bundle.c lines 936-951): packs are
downloaded only when more than 10 files are to be installed. -/
def download_packs_step (files : List SwupdFile) (s : Sys)
    (tr : List Ev) : Sys × List Ev :=
  if files.length > 10 then (fetch_missing_files files s, tr ++ [Ev.fetch])
  else (s, tr)

/-- Step 5 of `install_bundles` (bundle.c lines 953-963):
`download_fullfiles` on the to-install list; false models a nonzero return. -/
def download_fullfiles (env : InstallEnv) (files : List SwupdFile) (s : Sys)
    (tr : List Ev) : (Sys × List Ev) × Bool :=
  if env.download_ok then ((fetch_missing_files files s, tr ++ [Ev.fetch]), true)
  else ((s, tr ++ [Ev.fetch]), false)

/-- The pre-flight hash check of bundle.c lines 971-1004: for every file of
the plan whose hash names an existing staged entry, verify it; unlink the
entry (one `unlinkStaged` event) when the digest does not match, so a later
download can replace it.  Files absent from the staging area are skipped.
(`swupd_rm` failures, which would abort with `SWUPD_COULDNT_REMOVE_FILE`, are
not modelled: removal of an existing entry succeeds here.) -/
def preflight_hash_check : List SwupdFile → Sys → List Ev → Sys × List Ev
  | [], s, tr => (s, tr)
  | f :: rest, s, tr =>
    match s.staged.find? (fun e => e.hash == f.hash) with
    | none => preflight_hash_check rest s tr
    | some e =>
      if e.good then preflight_hash_check rest s tr
      else
        preflight_hash_check rest
          { s with staged := s.staged.filter (fun e2 => e2.hash != f.hash) }
          (tr ++ [Ev.unlinkStaged f.hash])

/-- The skip condition of both installation loops (bundle.c lines 1024 and
1056): deleted, do-not-update and ignored records are neither staged nor
renamed. -/
def skipFile (f : SwupdFile) : Bool :=
  f.is_deleted || f.do_not_update || f.is_ignored

/-- Phase A of `install_bundles` (bundle.c lines 1017-1047): stage every
non-skipped record in plan order (`do_staging`, one `stage` event per
attempt); a staging failure aborts the run (`goto out`).  `do_staging` is not
under src/; per spec §4.5 it gives a successfully staged regular file or
symlink its sidecar staging name `<path>.update`, while directories are
created at their final name and records staged out-of-band by
`verify_fix_path` keep no staging name.  The returned list is the plan with
the staging names filled in (the C loop mutates the shared file structs). -/
def stagingLoop (env : InstallEnv) :
    List SwupdFile → List SwupdFile → List Ev →
    List SwupdFile × List Ev × Bool
  | [], acc, tr => (acc, tr, true)
  | f :: rest, acc, tr =>
    if skipFile f then stagingLoop env rest (acc ++ [f]) tr
    else
      let tr' := tr ++ [Ev.stage f.filename]
      if env.stage_ok f.filename then
        let f' := if f.is_dir || env.fix_path_staged f.filename then f
                  else { f with staging := some (f.filename ++ ".update") }
        stagingLoop env rest (acc ++ [f']) tr'
      else (acc ++ [f], tr', false)

/-- Effect of `rename_staged_file_to_final` (not under src/) on the target
tree: the record's path now exists at its final name. -/
def rename_staged_file_to_final (s : Sys) (f : SwupdFile) : Sys :=
  if s.target.contains f.filename then s
  else { s with target := f.filename :: s.target }

/-- The record Phase B actually renames (bundle.c lines 1060-1067): a record
without a staging name that is not a directory was staged by
`verify_fix_path`, so the real record is looked up in the MoM's consolidated
view (`search_file_in_manifest`). -/
def resolve_staged (mom_files : List SwupdFile) (f : SwupdFile) : SwupdFile :=
  if f.staging.isNone ∧ ¬ f.is_dir then
    (mom_files.find? (fun g => g.filename == f.filename)).getD f
  else f

/-- Phase B of `install_bundles` (bundle.c lines 1049-1072): rename every
non-skipped record in plan order (one `rename` event each). -/
def renameLoop (mom_files : List SwupdFile) :
    List SwupdFile → Sys → List Ev → Sys × List Ev
  | [], s, tr => (s, tr)
  | f :: rest, s, tr =>
    if skipFile f then renameLoop mom_files rest s tr
    else
      renameLoop mom_files rest
        (rename_staged_file_to_final s (resolve_staged mom_files f))
        (tr ++ [Ev.rename (resolve_staged mom_files f).filename])

/-- Outcome of the two-loop installation section. -/
structure PhaseOut where
  sys : Sys
  trace : List Ev
  ok : Bool

/-- Step 6 of `install_bundles`, the two-phase installation (bundle.c lines
1006-1073): stage every file of the plan (Phase A), and only when the staging
loop processed every record, rename every file of the plan (Phase B) and
invoke `sync()`. -/
def installPhase (env : InstallEnv) (mom_files : List SwupdFile)
    (files : List SwupdFile) (s : Sys) (tr : List Ev) : PhaseOut :=
  let a := stagingLoop env files [] tr
  if a.2.2 then
    let b := renameLoop mom_files a.1 s a.2.1
    ⟨b.1, b.2 ++ [Ev.sync], true⟩
  else ⟨s, a.2.1, false⟩

/-- Result of one `install_bundles` run: `pre_code` is `ret` as it stands
when the out block's final check runs (bundle.c line 1137), `code` the value
actually returned (line 1140), plus the final filesystem state, the event
trace and the counters the function prints. -/
structure InstallResult where
  pre_code : SwupdCode
  code : SwupdCode
  sys : Sys
  trace : List Ev
  already_installed : Nat
  bundles_installed : Nat
  dependencies_installed : Nat
  bundles_failed : Int

/-- One iteration of the out block's counting loop (bundle.c lines
1088-1101): a to-install manifest whose component is now installed is counted
as a requested install (and tracked) or as an installed dependency. -/
def outStep (bundles : List String) (acc : Nat × Nat × Sys × List Ev)
    (m : Manifest) : Nat × Nat × Sys × List Ev :=
  if is_installed_bundle acc.2.2.1 m.component then
    if bundles.contains m.component then
      let t := track_installed acc.2.2.1 acc.2.2.2 m.component
      (acc.1 + 1, acc.2.1, t.1, t.2)
    else (acc.1, acc.2.1 + 1, acc.2.2.1, acc.2.2.2)
  else acc

/-- The out block of `install_bundles` (bundle.c lines 1085-1140): count the
requested bundles now installed (creating their tracking files) and the
dependencies installed, compute `bundles_failed`, and return
`SWUPD_INVALID_BUNDLE` instead of a successful `ret` when an invalid bundle
name was provided. -/
def install_out (bundles : List String) (to_install : List Manifest)
    (pre : SwupdCode) (flag : Bool) (already : Nat) (s : Sys) (tr : List Ev) :
    InstallResult :=
  let counted := to_install.foldl (outStep bundles) (0, 0, s, tr)
  let bi := counted.1
  let di := counted.2.1
  let failed : Int :=
    if pre ≠ SWUPD_OK ∧ bi ≠ 0 then (bundles.length : Int) - already
    else (bundles.length : Int) - bi - already
  let code := if flag ∧ pre = SWUPD_OK then SWUPD_INVALID_BUNDLE else pre
  ⟨pre, code, counted.2.2.1, counted.2.2.2, already, bi, di, failed⟩

/-- One iteration of the already-installed warning loop (bundle.c lines
819-835): an installed requested bundle is reported, counted and tracked. -/
def warnStep (acc : Nat × Sys × List Ev) (b : String) : Nat × Sys × List Ev :=
  if is_installed_bundle acc.2.1 b then
    let t := track_installed acc.2.1 acc.2.2 b
    (acc.1 + 1, t.1, t.2)
  else acc

/-- src/src/bundle.c `install_bundles` (lines 793-1141).  Step 1: subscribe
the requested bundles and their includes, warn about (and track) the
requested bundles already installed, and bail out when no new subscription
was made; steps 2-3: load the to-install and installed manifest sets,
consolidate their files, filter the plan, and check disk space; steps 4-5:
download packs and fullfiles; step 6: pre-flight hash check, then the
two-phase staged installation; step 7 (scripts) has no filesystem effect
here.  Every early exit funnels through the out block (`install_out`). -/
def install_bundles (env : InstallEnv) (s : Sys) (bundles : List String) :
    InstallResult :=
  let a := add_subscriptions env s env.fuel bundles [] false 0
  let warnLoop := bundles.foldl warnStep (0, s, [])
  let already := warnLoop.1
  let s1 := warnLoop.2.1
  let tr1 := warnLoop.2.2
  if ¬ a.1.new then
    let pre := if a.1.err then SWUPD_COULDNT_LOAD_MANIFEST
               else if a.1.badname then SWUPD_INVALID_BUNDLE
               else SWUPD_OK
    install_out bundles [] pre false already s1 tr1
  else
    let flag := a.1.badname
    match recurse_manifest env a.2 with
    | none => install_out bundles [] SWUPD_RECURSE_MANIFEST flag already s1 tr1
    | some to_install =>
      match recurse_manifest env (read_subscriptions env s1) with
      | none =>
        install_out bundles to_install SWUPD_RECURSE_MANIFEST flag already s1 tr1
      | some installed_bundles =>
        let mom_files := consolidate_files_from_bundles installed_bundles
        let installed_files := filter_out_deleted_files mom_files
        let to_install_files := filter_out_existing_files
          (filter_out_deleted_files
            (consolidate_files_from_bundles to_install)) installed_files
        if ¬ env.skip_diskspace_check ∧
            disk_space_insufficient
              (get_manifest_list_contentsize to_install) env.fs_free then
          install_out bundles to_install SWUPD_DISK_SPACE_ERROR flag already s1 tr1
        else
          let p := download_packs_step to_install_files s1 tr1
          let d := download_fullfiles env to_install_files p.1 p.2
          if ¬ d.2 then
            install_out bundles to_install SWUPD_COULDNT_DOWNLOAD_FILE flag
              already d.1.1 d.1.2
          else
            let pf := preflight_hash_check to_install_files d.1.1 d.1.2
            let ph := installPhase env mom_files to_install_files pf.1 pf.2
            if ph.ok then
              install_out bundles to_install SWUPD_OK flag already ph.sys ph.trace
            else
              install_out bundles to_install SWUPD_STAGE_FAILURE flag already
                ph.sys ph.trace

/-! ### Event classifiers and claim-level trace predicates -/

def isTrack : Ev → Bool
  | Ev.track _ => true
  | _ => false

def isUntrack : Ev → Bool
  | Ev.untrack _ => true
  | _ => false

def isFetch : Ev → Bool
  | Ev.fetch => true
  | _ => false

def isUnlinkStaged : Ev → Bool
  | Ev.unlinkStaged _ => true
  | _ => false

def isStage : Ev → Bool
  | Ev.stage _ => true
  | _ => false

def isRename : Ev → Bool
  | Ev.rename _ => true
  | _ => false

def isUnlinkFs : Ev → Bool
  | Ev.unlinkFs _ => true
  | _ => false

/-- Claim C9's remove-side ordering, as the claim states it: a bundle's
tracking file is deleted only after the files have been unlinked, i.e. every
`untrack` event comes after every `unlinkFs` event of the run. -/
@[reducible] def untracksAfterUnlinks (t : List Ev) : Prop :=
  ∀ i ∈ List.range t.length, ∀ j ∈ List.range t.length,
    isUntrack (t.getD i Ev.sync) → isUnlinkFs (t.getD j Ev.sync) → j < i

/-- Claim C8's re-fetch promise, as the claim states it: whenever a corrupt
staged copy is unlinked (at position i of the trace), the file is re-fetched
(a fetcher invocation occurs at a later position j) before staging proceeds
(j is before every staging action). -/
@[reducible] def refetchedBeforeStaging (t : List Ev) : Prop :=
  ∀ i ∈ List.range t.length, isUnlinkStaged (t.getD i Ev.sync) →
    ∃ j ∈ List.range t.length, i < j ∧ isFetch (t.getD j Ev.sync) ∧
      ∀ k ∈ List.range t.length, isStage (t.getD k Ev.sync) → j < k

/-! ### Concrete environments for counterexamples and witnesses -/

/-- A minimal os-core manifest: one library file and its own bundle marker. -/
def oscoreManifest : Manifest :=
  { component := "os-core",
    files := [{ filename := "/usr/lib/os-release", hash := "h0" },
              { filename := bundleMarker "os-core", hash := "hm0" }] }

/-- Removal environment for the C3 counterexample: only os-core exists and is
installed. -/
def removeEnvPrio : RemoveEnv :=
  { momBundles := ["os-core"], installed := ["os-core"],
    submanifests := [oscoreManifest], fuel := 10 }

/-- An os-core manifest that includes bundle X (spec §3 allows arbitrary
include edges), for the `--force` half of the C4 counterexample. -/
def oscoreIncludesX : Manifest :=
  { component := "os-core", includes := ["X"],
    files := [{ filename := "/usr/lib/os-release", hash := "h0" }] }

def bundleXManifest : Manifest :=
  { component := "X", files := [{ filename := "/usr/bin/x", hash := "h2" }] }

/-- Removal environment for the `--force` half of the C4 counterexample. -/
def removeEnvForce : RemoveEnv :=
  { momBundles := ["os-core", "X"], installed := ["os-core", "X"],
    submanifests := [oscoreIncludesX, bundleXManifest], force := true,
    fuel := 10 }

def testBundleManifest : Manifest :=
  { component := "test-bundle",
    files := [{ filename := "/usr/bin/test", hash := "h1" },
              { filename := bundleMarker "test-bundle", hash := "hm1" }] }

/-- Removal environment with os-core and one removable bundle installed
(mirrors the repository's functional test `create_bundle -n test-bundle -d
/usr/bin/test`). -/
def removeEnvPlain : RemoveEnv :=
  { momBundles := ["os-core", "test-bundle"],
    installed := ["os-core", "test-bundle"],
    submanifests := [oscoreManifest, testBundleManifest], fuel := 10 }

/-- A second copy of the plain removal environment, used by a different
claim's concrete theorem. -/
def removeEnvPlain2 : RemoveEnv :=
  { momBundles := ["os-core", "test-bundle"],
    installed := ["os-core", "test-bundle"],
    submanifests := [oscoreManifest, testBundleManifest], fuel := 7 }

def manifestA : Manifest :=
  { component := "A", contentsize := 1,
    files := [{ filename := "/usr/bin/a", hash := "ha" },
              { filename := bundleMarker "A", hash := "hma" }] }

def manifestB : Manifest :=
  { component := "B", contentsize := 10,
    files := [{ filename := "/usr/bin/b", hash := "hb" },
              { filename := bundleMarker "B", hash := "hmb" }] }

/-- Install environment whose MoM lists bundles A and B, with 5 bytes free on
the target filesystem. -/
def installEnvDisk : InstallEnv :=
  { momRefs := [{ name := "A", manifest := some manifestA },
                { name := "B", manifest := some manifestB }],
    fs_free := 5, fuel := 10 }

/-- System state where A is installed and nothing is tracked or staged. -/
def sysInstalledA : Sys :=
  { target := [bundleMarker "A"], tracked := [], staged := [] }

/-- Install environment for the C8 counterexample: B's payload hash `hb` is
present in the staging area but corrupt. -/
def installEnvCorrupt : InstallEnv :=
  { momRefs := [{ name := "B", manifest := some manifestB }],
    skip_diskspace_check := true, fuel := 10 }

def sysCorruptStage : Sys :=
  { target := [], tracked := [], staged := [⟨"hb", false⟩] }

/-- Install environment with ample disk used by several witnesses. -/
def installEnvPlain : InstallEnv :=
  { momRefs := [{ name := "A", manifest := some manifestA },
                { name := "B", manifest := some manifestB }],
    fs_free := 1000, fuel := 10 }

def sysEmpty : Sys := { target := [], tracked := [], staged := [] }

/-! ### Helper lemmas: consolidation and the unlink filter -/

theorem resolveCollision_cases (a b : SwupdFile) :
    resolveCollision a b = a ∨ resolveCollision a b = b := by
  unfold resolveCollision
  split
  · exact Or.inr rfl
  · split
    · exact Or.inl rfl
    · split
      · exact Or.inr rfl
      · exact Or.inl rfl

theorem resolveCollision_is_deleted (a b : SwupdFile) :
    (resolveCollision a b).is_deleted = (a.is_deleted && b.is_deleted) := by
  unfold resolveCollision
  rcases ha : a.is_deleted <;> rcases hb : b.is_deleted <;>
    simp [ha, hb] <;> split <;> simp [ha, hb]

theorem foldl_resolve_mem (l : List SwupdFile) (a : SwupdFile) :
    l.foldl resolveCollision a ∈ a :: l := by
  induction l generalizing a with
  | nil => simp
  | cons b t ih =>
    simp only [List.foldl_cons]
    rcases resolveCollision_cases a b with h | h <;> rw [h]
    · have := ih a
      simp only [List.mem_cons] at this ⊢
      tauto
    · have := ih b
      simp only [List.mem_cons] at this ⊢
      tauto

theorem foldl_resolve_is_deleted (l : List SwupdFile) (a : SwupdFile) :
    (l.foldl resolveCollision a).is_deleted = (a.is_deleted && l.all (fun g => g.is_deleted)) := by
  induction l generalizing a with
  | nil => simp
  | cons b t ih =>
    simp only [List.foldl_cons, List.all_cons]
    rw [ih, resolveCollision_is_deleted, Bool.and_assoc]

theorem foldl_resolve_filename (l : List SwupdFile) (a : SwupdFile) (p : String)
    (ha : a.filename = p) (hl : ∀ g ∈ l, g.filename = p) :
    (l.foldl resolveCollision a).filename = p := by
  have h := foldl_resolve_mem l a
  simp only [List.mem_cons] at h
  rcases h with h | h
  · rw [h, ha]
  · exact hl _ h

theorem consolidateGo_congr : ∀ (n m : Nat) (l : List SwupdFile),
    l.length ≤ n → l.length ≤ m → consolidateGo n l = consolidateGo m l := by
  intro n
  induction n with
  | zero =>
    intro m l hn _
    match l with
    | [] => cases m <;> rfl
  | succ n ih =>
    intro m l hn hm
    match l with
    | [] => cases m <;> rfl
    | f :: rest =>
      match m with
      | 0 => simp at hm
      | m + 1 =>
        simp only [consolidateGo]
        congr 1
        apply ih
        · refine le_trans (List.length_filter_le _ _) ?_
          simp only [List.length_cons] at hn
          omega
        · refine le_trans (List.length_filter_le _ _) ?_
          simp only [List.length_cons] at hm
          omega

theorem consolidateRecords_nil : consolidateRecords [] = [] := rfl

theorem consolidateRecords_cons (f : SwupdFile) (rest : List SwupdFile) :
    consolidateRecords (f :: rest) =
      (rest.filter (fun g => g.filename == f.filename)).foldl resolveCollision f ::
        consolidateRecords (rest.filter (fun g => g.filename != f.filename)) := by
  unfold consolidateRecords
  simp only [List.length_cons, consolidateGo]
  congr 1
  exact consolidateGo_congr rest.length _ _ (List.length_filter_le _ _) le_rfl

theorem mem_of_mem_consolidateRecords (l : List SwupdFile) (w : SwupdFile)
    (hw : w ∈ consolidateRecords l) : w ∈ l := by
  have key : ∀ (n : Nat) (l : List SwupdFile), l.length ≤ n →
      ∀ w, w ∈ consolidateRecords l → w ∈ l := by
    intro n
    induction n with
    | zero =>
      intro l hl w hw
      match l with
      | [] => simp [consolidateRecords_nil] at hw
    | succ n ih =>
      intro l hl w hw
      match l with
      | [] => simp [consolidateRecords_nil] at hw
      | f :: rest =>
        rw [consolidateRecords_cons] at hw
        simp only [List.mem_cons] at hw
        rcases hw with hw | hw
        · have hmem := foldl_resolve_mem (rest.filter (fun g => g.filename == f.filename)) f
          rw [← hw] at hmem
          simp only [List.mem_cons] at hmem
          rcases hmem with h | h
          · simp [h]
          · simp [List.mem_of_mem_filter h]
        · have hlen : (rest.filter (fun g => g.filename != f.filename)).length ≤ n := by
            have := List.length_filter_le (fun g => g.filename != f.filename) rest
            simp only [List.length_cons] at hl
            omega
          have := ih _ hlen _ hw
          simp [List.mem_of_mem_filter this]
  exact key l.length l le_rfl w hw

theorem consolidateRecords_keeps_live (l : List SwupdFile) (p : String)
    (h : ∃ g ∈ l, g.filename = p ∧ g.is_deleted = false) :
    ∃ w ∈ consolidateRecords l, w.filename = p ∧ w.is_deleted = false := by
  have key : ∀ (n : Nat) (l : List SwupdFile), l.length ≤ n →
      (∃ g ∈ l, g.filename = p ∧ g.is_deleted = false) →
      ∃ w ∈ consolidateRecords l, w.filename = p ∧ w.is_deleted = false := by
    intro n
    induction n with
    | zero =>
      intro l hl h
      match l with
      | [] => simp at h
    | succ n ih =>
      intro l hl h
      match l with
      | [] => simp at h
      | f :: rest =>
        obtain ⟨g, hg, hgp, hgd⟩ := h
        rw [consolidateRecords_cons]
        by_cases hp : f.filename = p
        · refine ⟨(rest.filter (fun g => g.filename == f.filename)).foldl resolveCollision f,
            List.mem_cons_self _ _, ?_, ?_⟩
          · exact foldl_resolve_filename _ _ _ hp (fun g hgmem => by
              have hb := (List.mem_filter.mp hgmem).2
              rw [beq_iff_eq] at hb
              rw [hb, hp])
          · rw [foldl_resolve_is_deleted]
            simp only [List.mem_cons] at hg
            rcases hg with rfl | hg
            · simp [hgd]
            · have hgdup : g ∈ rest.filter (fun g => g.filename == f.filename) := by
                refine List.mem_filter.mpr ⟨hg, ?_⟩
                rw [beq_iff_eq, hgp, hp]
              have hall : (rest.filter (fun g => g.filename == f.filename)).all
                  (fun g => g.is_deleted) = false := by
                rw [List.all_eq_false]
                exact ⟨g, hgdup, by simp [hgd]⟩
              simp [hall]
        · have hg' : g ∈ rest := by
            simp only [List.mem_cons] at hg
            rcases hg with rfl | hg
            · exact absurd hgp hp
            · exact hg
          have hgo : g ∈ rest.filter (fun g => g.filename != f.filename) := by
            refine List.mem_filter.mpr ⟨hg', ?_⟩
            simp only [bne_iff_ne, ne_eq]
            intro hc
            exact hp (by rw [← hc, hgp])
          have hlen : (rest.filter (fun g => g.filename != f.filename)).length ≤ n := by
            have := List.length_filter_le (fun g => g.filename != f.filename) rest
            simp only [List.length_cons] at hl
            omega
          obtain ⟨w, hw, hwp, hwd⟩ := ih _ hlen ⟨g, hgo, hgp, hgd⟩
          exact ⟨w, List.mem_cons_of_mem _ hw, hwp, hwd⟩
  exact key l.length l le_rfl h

theorem filter_files_to_delete_eq_zero (a b : SwupdFile) :
    filter_files_to_delete a b = 0 ↔
      a.is_deleted = true ∨ (a.filename = b.filename ∧ b.is_deleted = false) := by
  unfold filter_files_to_delete strcmp
  rcases ha : a.is_deleted with _ | _
  · rcases hname : decide (a.filename = b.filename) with _ | _
    · have hne : ¬ a.filename = b.filename := of_decide_eq_false hname
      rcases hlt : decide (a.filename.data < b.filename.data) with _ | _
      · have h2 := of_decide_eq_false hlt
        simp [hne, h2, ha]
      · have h2 := of_decide_eq_true hlt
        simp [hne, h2, ha]
    · have heq : a.filename = b.filename := of_decide_eq_true hname
      rcases hb : b.is_deleted with _ | _ <;> simp [heq, hb, ha]
  · simp [ha]

theorem mem_files_to_unlink_iff (removed kept : List Manifest) (f : SwupdFile) :
    f ∈ files_to_unlink removed kept ↔
      f ∈ consolidate_files_from_bundles removed ∧
      ∀ w ∈ consolidate_files_from_bundles kept,
        ¬ (f.is_deleted = true ∨ (f.filename = w.filename ∧ w.is_deleted = false)) := by
  unfold files_to_unlink list_filter_common_elements
  rw [List.mem_filter]
  constructor
  · rintro ⟨hmem, hpred⟩
    refine ⟨hmem, fun w hw hcase => ?_⟩
    rw [Bool.not_eq_eq_eq_not, Bool.not_true, List.any_eq_false] at hpred
    have hne := hpred w hw
    rw [beq_iff_eq] at hne
    exact hne ((filter_files_to_delete_eq_zero f w).mpr hcase)
  · rintro ⟨hmem, hall⟩
    refine ⟨hmem, ?_⟩
    rw [Bool.not_eq_eq_eq_not, Bool.not_true, List.any_eq_false]
    intro w hw
    rw [beq_iff_eq]
    intro hzero
    exact hall w hw ((filter_files_to_delete_eq_zero f w).mp hzero)

theorem files_to_unlink_keeps_needed (removed kept : List Manifest)
    (f : SwupdFile) (hf : f ∈ files_to_unlink removed kept)
    (m : Manifest) (hm : m ∈ kept) (g : SwupdFile) (hg : g ∈ m.files)
    (hgd : g.is_deleted = false) : f.filename ≠ g.filename := by
  intro heq
  have hflat : g ∈ (kept.map Manifest.files).flatten :=
    List.mem_flatten.mpr ⟨m.files, List.mem_map_of_mem _ hm, hg⟩
  obtain ⟨w, hw, hwp, hwd⟩ :=
    consolidateRecords_keeps_live ((kept.map Manifest.files).flatten) g.filename
      ⟨g, hflat, rfl, hgd⟩
  have h2 := ((mem_files_to_unlink_iff removed kept f).mp hf).2 w hw
  exact h2 (Or.inr ⟨heq.trans hwp.symm, hwd⟩)

theorem files_to_unlink_complete (removed kept : List Manifest) (f : SwupdFile)
    (hf : f ∈ consolidate_files_from_bundles removed) (hfd : f.is_deleted = false)
    (hkept : ∀ m ∈ kept, ∀ g ∈ m.files, g.filename = f.filename →
      g.is_deleted = true) : f ∈ files_to_unlink removed kept := by
  rw [mem_files_to_unlink_iff]
  refine ⟨hf, fun w hw => ?_⟩
  have hwmem : w ∈ (kept.map Manifest.files).flatten :=
    mem_of_mem_consolidateRecords _ _ hw
  obtain ⟨fl, hfl, hwin⟩ := List.mem_flatten.mp hwmem
  obtain ⟨m, hm, rfl⟩ := List.mem_map.mp hfl
  rintro (hdel | ⟨hname, hwd⟩)
  · rw [hfd] at hdel
    cases hdel
  · have := hkept m hm w hwin hname.symm
    rw [this] at hwd
    cases hwd

/-! ### Helper lemmas: the removal loop -/

theorem erase_manifest_eq (name : String) (src dst : List Manifest) :
    (list_move_item name src dst).1 = erase_manifest src name := by
  unfold erase_manifest list_move_item
  cases h : src.find? (fun m => m.component == name) <;> simp [h]

theorem mem_eraseP_of_pred_false {α : Type} (l : List α) (p : α → Bool) (m : α)
    (hm : m ∈ l) (hp : p m = false) : m ∈ l.eraseP p := by
  induction l with
  | nil => cases hm
  | cons a t ih =>
    rw [List.eraseP_cons]
    rcases hpa : p a with _ | _
    · simp only [cond_false]
      rcases List.mem_cons.mp hm with rfl | hmt
      · exact List.mem_cons_self _ _
      · exact List.mem_cons_of_mem _ (ih hmt)
    · simp only [cond_true]
      rcases List.mem_cons.mp hm with rfl | hmt
      · rw [hp] at hpa
        cases hpa
      · exact hmt

theorem mem_erase_manifest (m : Manifest) (src : List Manifest) (name : String)
    (hm : m ∈ src) (hne : m.component ≠ name) : m ∈ erase_manifest src name := by
  unfold erase_manifest list_move_item
  cases h : src.find? (fun m => m.component == name) with
  | none => simpa using hm
  | some _ =>
    simp only
    exact mem_eraseP_of_pred_false _ _ _ hm (beq_eq_false_iff_ne.mpr hne)

theorem foldl_remove_move_dep (reqd : List String) (st : RemoveState) :
    (reqd.foldl remove_move_dep st).ret_code = st.ret_code ∧
    (reqd.foldl remove_move_dep st).bad = st.bad ∧
    (reqd.foldl remove_move_dep st).total = st.total ∧
    (reqd.foldl remove_move_dep st).submanifests =
      reqd.foldl erase_manifest st.submanifests ∧
    (reqd.foldl remove_move_dep st).trace = st.trace ++ reqd.map Ev.untrack := by
  induction reqd generalizing st with
  | nil => simp
  | cons d t ih =>
    simp only [List.foldl_cons, List.map_cons]
    obtain ⟨h1, h2, h3, h4, h5⟩ := ih (remove_move_dep st d)
    refine ⟨?_, ?_, ?_, ?_, ?_⟩
    · rw [h1]; rfl
    · rw [h2]; rfl
    · rw [h3]; rfl
    · rw [h4]
      simp [remove_move_dep, erase_manifest_eq]
    · rw [h5]
      simp [remove_move_dep]

theorem getLastD_cons_self {α : Type} (c d : α) (l : List α) :
    (c :: l).getLastD d = l.getLastD c := by
  cases l <;> simp [List.getLastD]

theorem remove_loop_spec (env : RemoveEnv) (bs : List String) (st : RemoveState) :
    (remove_loop env bs st).total = st.total + bs.length ∧
    (remove_loop env bs st).bad =
      st.bad + (remove_fault_codes env bs st.submanifests).length ∧
    (remove_loop env bs st).ret_code =
      (remove_fault_codes env bs st.submanifests).getLastD st.ret_code := by
  induction bs generalizing st with
  | nil => simp [remove_loop, remove_fault_codes]
  | cons bundle rest ih =>
    simp only [remove_loop, remove_fault_codes]
    by_cases h1 : bundle = "os-core"
    · rw [if_pos h1, if_pos h1]
      refine ⟨?_, ?_, ?_⟩
      · rw [(ih _).1]
        simp only [List.length_cons]
        omega
      · rw [(ih _).2.1]
        simp only [List.length_cons]
        omega
      · rw [(ih _).2.2, getLastD_cons_self]
    · rw [if_neg h1, if_neg h1]
      rcases h2 : env.momBundles.contains bundle with _ | _
      · simp only [h2, Bool.not_false, if_true]
        refine ⟨?_, ?_, ?_⟩
        · rw [(ih _).1]
          simp only [List.length_cons]
          omega
        · rw [(ih _).2.1]
          simp only [List.length_cons]
          omega
        · rw [(ih _).2.2, getLastD_cons_self]
      · simp only [h2, Bool.not_true, Bool.false_eq_true, if_false]
        rcases h3 : env.installed.contains bundle with _ | _
        · simp only [h3, Bool.not_false, if_true]
          refine ⟨?_, ?_, ?_⟩
          · rw [(ih _).1]
            simp only [List.length_cons]
            omega
          · rw [(ih _).2.1]
            simp only [List.length_cons]
            omega
          · rw [(ih _).2.2, getLastD_cons_self]
        · simp only [h3, Bool.not_true, Bool.false_eq_true, if_false]
          by_cases h4 : (required_by env.fuel st.submanifests bundle
              (bundle :: rest)).length > 0 ∧ ¬ env.force
          · rw [if_pos h4, if_pos h4]
            refine ⟨?_, ?_, ?_⟩
            · rw [(ih _).1]
              simp only [List.length_cons]
              omega
            · rw [(ih _).2.1]
              simp only [List.length_cons]
              omega
            · rw [(ih _).2.2, getLastD_cons_self]
          · rw [if_neg h4, if_neg h4]
            by_cases h5 : (required_by env.fuel st.submanifests bundle
                (bundle :: rest)).length > 0
            · rw [if_pos h5, if_pos h5]
              obtain ⟨f1, f2, f3, f4, f5⟩ := foldl_remove_move_dep
                (required_by env.fuel st.submanifests bundle (bundle :: rest)) st
              refine ⟨?_, ?_, ?_⟩
              · rw [(ih _).1]
                simp only [remove_move_dep, List.length_cons]
                rw [f3]
                omega
              · rw [(ih _).2.1]
                simp only [remove_move_dep]
                rw [f2, f4, erase_manifest_eq]
              · rw [(ih _).2.2]
                simp only [remove_move_dep]
                rw [f1, f4, erase_manifest_eq]
            · rw [if_neg h5, if_neg h5]
              refine ⟨?_, ?_, ?_⟩
              · rw [(ih _).1]
                simp only [remove_move_dep, List.length_cons]
                omega
              · rw [(ih _).2.1]
                simp only [remove_move_dep]
                rw [erase_manifest_eq]
              · rw [(ih _).2.2]
                simp only [remove_move_dep]
                rw [erase_manifest_eq]

theorem remove_loop_keeps_oscore (env : RemoveEnv) (hforce : env.force = false)
    (bs : List String) (st : RemoveState) (m : Manifest)
    (hm : m ∈ st.submanifests) (hcomp : m.component = "os-core") :
    m ∈ (remove_loop env bs st).submanifests := by
  induction bs generalizing st with
  | nil => simpa [remove_loop] using hm
  | cons bundle rest ih =>
    simp only [remove_loop]
    by_cases h1 : bundle = "os-core"
    · rw [if_pos h1]
      exact ih _ hm
    · rw [if_neg h1]
      rcases h2 : env.momBundles.contains bundle with _ | _
      · simp only [h2, Bool.not_false, if_true]
        exact ih _ hm
      · simp only [h2, Bool.not_true, Bool.false_eq_true, if_false]
        rcases h3 : env.installed.contains bundle with _ | _
        · simp only [h3, Bool.not_false, if_true]
          exact ih _ hm
        · simp only [h3, Bool.not_true, Bool.false_eq_true, if_false]
          by_cases h4 : (required_by env.fuel st.submanifests bundle
              (bundle :: rest)).length > 0 ∧ ¬ env.force
          · rw [if_pos h4]
            exact ih _ hm
          · rw [if_neg h4]
            have h5 : ¬ (required_by env.fuel st.submanifests bundle
                (bundle :: rest)).length > 0 := by
              intro hlen
              exact h4 ⟨hlen, by simp [hforce]⟩
            rw [if_neg h5]
            apply ih
            simp only [remove_move_dep]
            rw [erase_manifest_eq]
            exact mem_erase_manifest m _ _ hm (by rw [hcomp]; exact fun hc => h1 hc.symm)

theorem oscore_fault_mem (env : RemoveEnv) (bs : List String)
    (subman : List Manifest) (hos : "os-core" ∈ bs) :
    SWUPD_REQUIRED_BUNDLE_ERROR ∈ remove_fault_codes env bs subman := by
  induction bs generalizing subman with
  | nil => cases hos
  | cons bundle rest ih =>
    simp only [remove_fault_codes]
    by_cases h1 : bundle = "os-core"
    · rw [if_pos h1]
      exact List.mem_cons_self _ _
    · rw [if_neg h1]
      have hos' : "os-core" ∈ rest := by
        rcases List.mem_cons.mp hos with h | h
        · exact absurd h.symm h1
        · exact h
      rcases h2 : env.momBundles.contains bundle with _ | _
      · simp only [h2, Bool.not_false, if_true]
        exact List.mem_cons_of_mem _ (ih _ hos')
      · simp only [h2, Bool.not_true, Bool.false_eq_true, if_false]
        rcases h3 : env.installed.contains bundle with _ | _
        · simp only [h3, Bool.not_false, if_true]
          exact List.mem_cons_of_mem _ (ih _ hos')
        · simp only [h3, Bool.not_true, Bool.false_eq_true, if_false]
          by_cases h4 : (required_by env.fuel subman bundle
              (bundle :: rest)).length > 0 ∧ ¬ env.force
          · rw [if_pos h4]
            exact List.mem_cons_of_mem _ (ih _ hos')
          · rw [if_neg h4]
            exact ih _ hos'

theorem remove_loop_trace (env : RemoveEnv) (bs : List String)
    (st : RemoveState) :
    ∃ d, (remove_loop env bs st).trace = st.trace ++ d ∧
      ∀ e ∈ d, ∃ b, e = Ev.untrack b := by
  induction bs generalizing st with
  | nil => exact ⟨[], by simp [remove_loop], by simp⟩
  | cons bundle rest ih =>
    simp only [remove_loop]
    by_cases h1 : bundle = "os-core"
    · rw [if_pos h1]
      exact ih _
    · rw [if_neg h1]
      rcases h2 : env.momBundles.contains bundle with _ | _
      · simp only [h2, Bool.not_false, if_true]
        exact ih _
      · simp only [h2, Bool.not_true, Bool.false_eq_true, if_false]
        rcases h3 : env.installed.contains bundle with _ | _
        · simp only [h3, Bool.not_false, if_true]
          exact ih _
        · simp only [h3, Bool.not_true, Bool.false_eq_true, if_false]
          by_cases h4 : (required_by env.fuel st.submanifests bundle
              (bundle :: rest)).length > 0 ∧ ¬ env.force
          · rw [if_pos h4]
            exact ih _
          · rw [if_neg h4]
            by_cases h5 : (required_by env.fuel st.submanifests bundle
                (bundle :: rest)).length > 0
            · rw [if_pos h5]
              obtain ⟨d, hd, hall⟩ := ih { remove_move_dep
                ((required_by env.fuel st.submanifests bundle
                  (bundle :: rest)).foldl remove_move_dep st) bundle with
                total := _ + 1 }
              obtain ⟨_, _, _, _, f5⟩ := foldl_remove_move_dep
                (required_by env.fuel st.submanifests bundle (bundle :: rest)) st
              refine ⟨(required_by env.fuel st.submanifests bundle
                (bundle :: rest)).map Ev.untrack ++ [Ev.untrack bundle] ++ d, ?_, ?_⟩
              · rw [hd]
                simp only [remove_move_dep]
                rw [f5]
                simp
              · intro e he
                simp only [List.mem_append, List.mem_map, List.mem_singleton] at he
                rcases he with (⟨b, _, rfl⟩ | rfl) | he
                · exact ⟨b, rfl⟩
                · exact ⟨bundle, rfl⟩
                · exact hall e he
            · rw [if_neg h5]
              obtain ⟨d, hd, hall⟩ := ih { remove_move_dep st bundle with
                total := _ + 1 }
              refine ⟨[Ev.untrack bundle] ++ d, ?_, ?_⟩
              · rw [hd]
                simp [remove_move_dep]
              · intro e he
                simp only [List.mem_append, List.mem_singleton] at he
                rcases he with rfl | he
                · exact ⟨bundle, rfl⟩
                · exact hall e he

theorem remove_bundles_proj (env : RemoveEnv) (bs : List String) :
    (remove_bundles env bs).code =
      (remove_loop env bs ⟨SWUPD_OK, 0, 0, env.submanifests, [], []⟩).ret_code ∧
    (remove_bundles env bs).bad =
      (remove_loop env bs ⟨SWUPD_OK, 0, 0, env.submanifests, [], []⟩).bad ∧
    (remove_bundles env bs).total =
      (remove_loop env bs ⟨SWUPD_OK, 0, 0, env.submanifests, [], []⟩).total ∧
    (remove_bundles env bs).kept =
      (remove_loop env bs ⟨SWUPD_OK, 0, 0, env.submanifests, [], []⟩).submanifests ∧
    ((remove_bundles env bs).files_to_remove = [] ∨
      (remove_bundles env bs).files_to_remove =
        files_to_unlink
          (remove_loop env bs ⟨SWUPD_OK, 0, 0, env.submanifests, [], []⟩).bundles_to_remove
          (remove_loop env bs ⟨SWUPD_OK, 0, 0, env.submanifests, [], []⟩).submanifests) := by
  rcases hb : (remove_loop env bs
      ⟨SWUPD_OK, 0, 0, env.submanifests, [], []⟩).bundles_to_remove.isEmpty with _ | _
  · simp [remove_bundles, hb]
  · simp [remove_bundles, hb]

theorem remove_bundles_removed (env : RemoveEnv) (bs : List String) :
    (remove_bundles env bs).removed = [] ∨
      (remove_bundles env bs).removed =
        (remove_loop env bs ⟨SWUPD_OK, 0, 0, env.submanifests, [], []⟩).bundles_to_remove := by
  rcases hb : (remove_loop env bs
      ⟨SWUPD_OK, 0, 0, env.submanifests, [], []⟩).bundles_to_remove.isEmpty with _ | _
  · simp [remove_bundles, hb]
  · simp [remove_bundles, hb]

/-- C1: for every `remove_bundles` run, a file record of the removed bundles
is in the unlink set only if no kept (still-subscribed) bundle manifest
carries a non-deleted record for the same path; and conversely, every
non-deleted record of the consolidated removed set whose path no kept bundle
still provides is unlinked (no file uniquely owned by the removed bundles
remains).  `kept` is `current_mom->submanifests` after the loop, `removed`
is `bundles_to_remove` (bundle.c lines 664-683). -/
theorem C1_remove_unlinks_only_unowned (env : RemoveEnv) (bs : List String) :
    (∀ f ∈ (remove_bundles env bs).files_to_remove,
      ∀ m ∈ (remove_bundles env bs).kept, ∀ g ∈ m.files,
        g.is_deleted = false → f.filename ≠ g.filename) ∧
    (∀ f ∈ consolidate_files_from_bundles (remove_bundles env bs).removed,
      f.is_deleted = false →
      (∀ m ∈ (remove_bundles env bs).kept, ∀ g ∈ m.files,
        g.filename = f.filename → g.is_deleted = true) →
      f ∈ (remove_bundles env bs).files_to_remove) := by
  rcases hb : (remove_loop env bs
      ⟨SWUPD_OK, 0, 0, env.submanifests, [], []⟩).bundles_to_remove.isEmpty with _ | _
  · constructor
    · intro f hf m hm g hg hgd
      simp only [remove_bundles, hb, Bool.false_eq_true, if_false] at hf hm
      exact files_to_unlink_keeps_needed _ _ f hf m hm g hg hgd
    · intro f hf hfd hkept
      simp only [remove_bundles, hb, Bool.false_eq_true, if_false] at hf hkept ⊢
      exact files_to_unlink_complete _ _ f hf hfd hkept
  · constructor
    · intro f hf
      simp only [remove_bundles, hb, if_true] at hf
      cases hf
    · intro f hf
      simp only [remove_bundles, hb, if_true] at hf
      simp only [consolidate_files_from_bundles, List.map_nil, List.flatten_nil,
        consolidateRecords_nil] at hf
      cases hf

/-- C1 witness: removing `test-bundle` while os-core stays installed unlinks
`/usr/bin/test`, which only test-bundle provides. -/
theorem C1_witness :
    ({ filename := "/usr/bin/test", hash := "h1" } : SwupdFile) ∈
      (remove_bundles removeEnvPlain ["test-bundle"]).files_to_remove :=
  (C1_remove_unlinks_only_unowned removeEnvPlain ["test-bundle"]).2
    { filename := "/usr/bin/test", hash := "h1" } (by decide) (by decide)
    (by decide)

/-- C3 counterexample: for the input list `["os-core", "zzz"]` (os-core
installed, `zzz` absent from the MoM) the first error encountered — which is
also the highest-priority one (required-bundle > invalid) — is
`SWUPD_REQUIRED_BUNDLE_ERROR`, but `remove_bundles` returns the later
`SWUPD_INVALID_BUNDLE`: `ret_code` is overwritten by every fault
(bundle.c lines 598-617), so the LAST error wins, not the first and not the
most severe. -/
theorem C3_counterexample :
    (remove_fault_codes removeEnvPrio ["os-core", "zzz"]
        removeEnvPrio.submanifests).headD SWUPD_OK =
      SWUPD_REQUIRED_BUNDLE_ERROR ∧
    (remove_bundles removeEnvPrio ["os-core", "zzz"]).code =
      SWUPD_INVALID_BUNDLE ∧
    SWUPD_INVALID_BUNDLE ≠ SWUPD_REQUIRED_BUNDLE_ERROR := by decide

/-- C3 (amended): `remove_bundles` continues past each faulty bundle (every
input bundle is processed: `total` equals the input length), reports the
bad/total counts (`bad` equals the number of per-bundle faults), and returns
the LAST per-bundle fault code assigned (os-core and required-bundle faults
give `SWUPD_REQUIRED_BUNDLE_ERROR`, unknown names `SWUPD_INVALID_BUNDLE`,
not-installed names `SWUPD_BUNDLE_NOT_TRACKED`), or `SWUPD_OK` when no fault
occurred — not the first error and not a priority order. -/
theorem C3_last_error_aggregation (env : RemoveEnv) (bs : List String) :
    (remove_bundles env bs).total = bs.length ∧
    (remove_bundles env bs).bad =
      (remove_fault_codes env bs env.submanifests).length ∧
    (remove_bundles env bs).code =
      (remove_fault_codes env bs env.submanifests).getLastD SWUPD_OK := by
  obtain ⟨t1, t2, t3⟩ :=
    remove_loop_spec env bs ⟨SWUPD_OK, 0, 0, env.submanifests, [], []⟩
  obtain ⟨p1, p2, p3, _, _⟩ := remove_bundles_proj env bs
  have hsub : (⟨SWUPD_OK, 0, 0, env.submanifests, [], []⟩ :
      RemoveState).submanifests = env.submanifests := rfl
  rw [hsub] at t2 t3
  refine ⟨?_, ?_, ?_⟩
  · rw [p3, t1]
    simp
  · rw [p2, t2]
    simp
  · rw [p1, t3]

/-- C4 counterexample, refuting two parts of the claim at concrete inputs.
First: for `remove_bundles ["os-core", "zzz"]` the exit status is
`SWUPD_INVALID_BUNDLE`, not `SWUPD_REQUIRED_BUNDLE_ERROR` — the later fault
overwrites os-core's code.  Second: with `--force` and an os-core that
includes bundle X, `remove_bundles ["os-core", "X"]` moves os-core into the
removal set as a reverse dependency of X, and os-core's file
`/usr/lib/os-release` IS unlinked even though os-core was in the input list. -/
theorem C4_counterexample :
    (remove_bundles removeEnvPrio ["os-core", "zzz"]).code ≠
      SWUPD_REQUIRED_BUNDLE_ERROR ∧
    "/usr/lib/os-release" ∈
      ((remove_bundles removeEnvForce ["os-core", "X"]).files_to_remove.map
        (fun f => f.filename)) := by decide

/-- C4 (amended): when the input list contains os-core and `--force` is not
used, os-core itself is rejected with the per-bundle code
`SWUPD_REQUIRED_BUNDLE_ERROR` and counted in `bad`; os-core's manifest stays
in the kept submanifests, so none of its non-deleted files is unlinked; and
the exit status is `SWUPD_REQUIRED_BUNDLE_ERROR` whenever os-core's fault is
the last fault of the run (a later bundle fault overwrites the code).  Under
`--force` os-core can still be removed as a reverse dependency of another
listed bundle (see the counterexample). -/
theorem C4_oscore_rejected (env : RemoveEnv) (bs : List String) (m : Manifest)
    (hforce : env.force = false) (hos : "os-core" ∈ bs)
    (hm : m ∈ env.submanifests) (hcomp : m.component = "os-core") :
    SWUPD_REQUIRED_BUNDLE_ERROR ∈ remove_fault_codes env bs env.submanifests ∧
    (remove_bundles env bs).bad ≥ 1 ∧
    m ∈ (remove_bundles env bs).kept ∧
    (∀ g ∈ m.files, g.is_deleted = false →
      ∀ f ∈ (remove_bundles env bs).files_to_remove, f.filename ≠ g.filename) ∧
    ((remove_fault_codes env bs env.submanifests).getLastD SWUPD_OK =
        SWUPD_REQUIRED_BUNDLE_ERROR →
      (remove_bundles env bs).code = SWUPD_REQUIRED_BUNDLE_ERROR) := by
  have hmem := oscore_fault_mem env bs env.submanifests hos
  obtain ⟨t1, t2, t3⟩ :=
    remove_loop_spec env bs ⟨SWUPD_OK, 0, 0, env.submanifests, [], []⟩
  have hsub : (⟨SWUPD_OK, 0, 0, env.submanifests, [], []⟩ :
      RemoveState).submanifests = env.submanifests := rfl
  rw [hsub] at t2 t3
  obtain ⟨p1, p2, _, p4, p5⟩ := remove_bundles_proj env bs
  have hkept : m ∈ (remove_bundles env bs).kept := by
    rw [p4]
    exact remove_loop_keeps_oscore env hforce bs _ m hm hcomp
  refine ⟨hmem, ?_, hkept, ?_, ?_⟩
  · rw [p2, t2]
    have : 0 < (remove_fault_codes env bs env.submanifests).length :=
      List.length_pos.mpr (List.ne_nil_of_mem hmem)
    omega
  · intro g hg hgd f hf
    rcases p5 with hempty | hfiles
    · rw [hempty] at hf
      cases hf
    · rw [hfiles] at hf
      rw [p4] at hkept
      exact files_to_unlink_keeps_needed _ _ f hf m hkept g hg hgd
  · intro hlast
    rw [p1, t3]
    simpa using hlast

/-- C4 witness: applying the amended theorem to the concrete environment
where os-core and test-bundle are installed and the user asks to remove
`["os-core"]`. -/
theorem C4_witness :
    SWUPD_REQUIRED_BUNDLE_ERROR ∈
      remove_fault_codes removeEnvPlain2 ["os-core"]
        removeEnvPlain2.submanifests ∧
    (remove_bundles removeEnvPlain2 ["os-core"]).bad ≥ 1 ∧
    oscoreManifest ∈ (remove_bundles removeEnvPlain2 ["os-core"]).kept ∧
    (∀ g ∈ oscoreManifest.files, g.is_deleted = false →
      ∀ f ∈ (remove_bundles removeEnvPlain2 ["os-core"]).files_to_remove,
        f.filename ≠ g.filename) ∧
    ((remove_fault_codes removeEnvPlain2 ["os-core"]
        removeEnvPlain2.submanifests).getLastD SWUPD_OK =
          SWUPD_REQUIRED_BUNDLE_ERROR →
      (remove_bundles removeEnvPlain2 ["os-core"]).code =
        SWUPD_REQUIRED_BUNDLE_ERROR) :=
  C4_oscore_rejected removeEnvPlain2 ["os-core"] oscoreManifest (by decide)
    (by decide) (by decide) (by decide)

/-! ### Helper lemmas: tracking, warning loop, downloads, pre-flight -/

theorem track_installed_trace (s : Sys) (tr : List Ev) (b : String) :
    (track_installed s tr b).2 = tr ++ [Ev.track b] := by
  simp only [track_installed]

theorem track_installed_target (s : Sys) (tr : List Ev) (b : String) :
    (track_installed s tr b).1.target = s.target := by
  simp only [track_installed]
  split <;> split <;> rfl

theorem track_installed_staged (s : Sys) (tr : List Ev) (b : String) :
    (track_installed s tr b).1.staged = s.staged := by
  simp only [track_installed]
  split <;> split <;> rfl

theorem track_installed_mem (s : Sys) (tr : List Ev) (b : String) :
    b ∈ (track_installed s tr b).1.tracked := by
  simp only [track_installed]
  split
  · split
    · next h => simpa using h
    · simp
  · split
    · next h => simpa using h
    · simp

theorem track_installed_tracked_mono (s : Sys) (tr : List Ev) (b x : String)
    (hx : x ∈ s.tracked) : x ∈ (track_installed s tr b).1.tracked := by
  simp only [track_installed]
  split
  · next h =>
    rw [List.isEmpty_iff] at h
    rw [h] at hx
    cases hx
  · split
    · exact hx
    · exact List.mem_cons_of_mem _ hx

theorem track_installed_noop (s : Sys) (tr : List Ev) (b : String)
    (hb : b ∈ s.tracked) : (track_installed s tr b).1 = s := by
  have hne : s.tracked.isEmpty = false := by
    rw [List.isEmpty_eq_false]
    exact List.ne_nil_of_mem hb
  simp only [track_installed, hne, Bool.false_eq_true, if_false]
  rw [if_pos (by simpa using hb)]

theorem warnStep_target (acc : Nat × Sys × List Ev) (b : String) :
    (warnStep acc b).2.1.target = acc.2.1.target := by
  unfold warnStep
  split
  · exact track_installed_target _ _ _
  · rfl

theorem warnStep_staged (acc : Nat × Sys × List Ev) (b : String) :
    (warnStep acc b).2.1.staged = acc.2.1.staged := by
  unfold warnStep
  split
  · exact track_installed_staged _ _ _
  · rfl

theorem warn_fold_target (bs : List String) (acc : Nat × Sys × List Ev) :
    (bs.foldl warnStep acc).2.1.target = acc.2.1.target := by
  induction bs generalizing acc with
  | nil => rfl
  | cons b rest ih =>
    rw [List.foldl_cons, ih, warnStep_target]

theorem warn_fold_staged (bs : List String) (acc : Nat × Sys × List Ev) :
    (bs.foldl warnStep acc).2.1.staged = acc.2.1.staged := by
  induction bs generalizing acc with
  | nil => rfl
  | cons b rest ih =>
    rw [List.foldl_cons, ih, warnStep_staged]

theorem warn_fold_trace (bs : List String) (acc : Nat × Sys × List Ev) :
    ∃ d, (bs.foldl warnStep acc).2.2 = acc.2.2 ++ d ∧
      ∀ e ∈ d, ∃ b, e = Ev.track b ∧ is_installed_bundle acc.2.1 b = true := by
  induction bs generalizing acc with
  | nil => exact ⟨[], by simp, by simp⟩
  | cons b rest ih =>
    rw [List.foldl_cons]
    obtain ⟨d, hd, hall⟩ := ih (warnStep acc b)
    rcases hb : is_installed_bundle acc.2.1 b with _ | _
    · have hstep : warnStep acc b = acc := by
        unfold warnStep
        rw [if_neg (by simp [hb])]
      rw [hstep]
      exact ih acc
    · have hstep2 : (warnStep acc b).2.2 = acc.2.2 ++ [Ev.track b] := by
        unfold warnStep
        rw [if_pos (by simp [hb])]
        exact track_installed_trace _ _ _
      have hstep1 : (warnStep acc b).2.1.target = acc.2.1.target :=
        warnStep_target acc b
      refine ⟨Ev.track b :: d, ?_, ?_⟩
      · rw [hd, hstep2]
        simp
      · intro e he
        rcases List.mem_cons.mp he with rfl | he
        · exact ⟨b, rfl, hb⟩
        · obtain ⟨b', rfl, hb'⟩ := hall e he
          refine ⟨b', rfl, ?_⟩
          rw [is_installed_bundle] at hb' ⊢
          rw [← hstep1]
          exact hb'

theorem warn_fold_tracked_mono (bs : List String) (acc : Nat × Sys × List Ev)
    (x : String) (hx : x ∈ acc.2.1.tracked) :
    x ∈ (bs.foldl warnStep acc).2.1.tracked := by
  induction bs generalizing acc with
  | nil => exact hx
  | cons b rest ih =>
    rw [List.foldl_cons]
    apply ih
    unfold warnStep
    split
    · exact track_installed_tracked_mono _ _ _ _ hx
    · exact hx

theorem warn_fold_count_mono (bs : List String) (acc : Nat × Sys × List Ev) :
    acc.1 ≤ (bs.foldl warnStep acc).1 := by
  induction bs generalizing acc with
  | nil => exact le_rfl
  | cons b rest ih =>
    rw [List.foldl_cons]
    refine le_trans ?_ (ih _)
    unfold warnStep
    split
    · simp
    · exact le_rfl

theorem warn_fold_mem (bs : List String) (acc : Nat × Sys × List Ev)
    (b : String) (hb : b ∈ bs) (hinst : is_installed_bundle acc.2.1 b = true) :
    Ev.track b ∈ (bs.foldl warnStep acc).2.2 ∧
    b ∈ (bs.foldl warnStep acc).2.1.tracked ∧
    acc.1 + 1 ≤ (bs.foldl warnStep acc).1 := by
  induction bs generalizing acc with
  | nil => cases hb
  | cons c rest ih =>
    rw [List.foldl_cons]
    rcases List.mem_cons.mp hb with rfl | hbr
    · have hpos : warnStep acc b =
          (acc.1 + 1, (track_installed acc.2.1 acc.2.2 b).1,
            (track_installed acc.2.1 acc.2.2 b).2) := by
        unfold warnStep
        rw [if_pos (by simp [hinst])]
      refine ⟨?_, ?_, ?_⟩
      · obtain ⟨d, hd, _⟩ := warn_fold_trace rest (warnStep acc b)
        rw [hd, hpos]
        simp only [track_installed_trace]
        simp
      · apply warn_fold_tracked_mono
        rw [hpos]
        exact track_installed_mem _ _ _
      · have : acc.1 + 1 ≤ (warnStep acc b).1 := by
          rw [hpos]
        calc acc.1 + 1 ≤ (warnStep acc b).1 := this
          _ ≤ (rest.foldl warnStep (warnStep acc b)).1 :=
            warn_fold_count_mono rest _
    · have hinst' : is_installed_bundle (warnStep acc c).2.1 b = true := by
        rw [is_installed_bundle] at hinst ⊢
        rw [warnStep_target]
        exact hinst
      obtain ⟨m1, m2, m3⟩ := ih (warnStep acc c) hbr hinst'
      refine ⟨m1, m2, ?_⟩
      have : acc.1 ≤ (warnStep acc c).1 := by
        unfold warnStep
        split
        · simp
        · exact le_rfl
      omega

theorem fetch_missing_files_target (files : List SwupdFile) (s : Sys) :
    (fetch_missing_files files s).target = s.target := rfl

theorem fetch_missing_files_tracked (files : List SwupdFile) (s : Sys) :
    (fetch_missing_files files s).tracked = s.tracked := rfl

theorem download_packs_step_trace (files : List SwupdFile) (s : Sys)
    (tr : List Ev) : ∃ d, (download_packs_step files s tr).2 = tr ++ d ∧
      ∀ e ∈ d, e = Ev.fetch := by
  unfold download_packs_step
  split
  · exact ⟨[Ev.fetch], rfl, by simp⟩
  · exact ⟨[], by simp, by simp⟩

theorem download_packs_step_sys (files : List SwupdFile) (s : Sys)
    (tr : List Ev) :
    (download_packs_step files s tr).1.target = s.target ∧
    (download_packs_step files s tr).1.tracked = s.tracked := by
  unfold download_packs_step
  split
  · exact ⟨rfl, rfl⟩
  · exact ⟨rfl, rfl⟩

theorem download_fullfiles_trace (env : InstallEnv) (files : List SwupdFile)
    (s : Sys) (tr : List Ev) :
    (download_fullfiles env files s tr).1.2 = tr ++ [Ev.fetch] := by
  unfold download_fullfiles
  split <;> rfl

theorem download_fullfiles_sys (env : InstallEnv) (files : List SwupdFile)
    (s : Sys) (tr : List Ev) :
    (download_fullfiles env files s tr).1.1.target = s.target ∧
    (download_fullfiles env files s tr).1.1.tracked = s.tracked := by
  unfold download_fullfiles
  split <;> exact ⟨rfl, rfl⟩

theorem preflight_trace (files : List SwupdFile) (s : Sys) (tr : List Ev) :
    ∃ d, (preflight_hash_check files s tr).2 = tr ++ d ∧
      ∀ e ∈ d, ∃ h, e = Ev.unlinkStaged h := by
  induction files generalizing s tr with
  | nil => exact ⟨[], by simp [preflight_hash_check], by simp⟩
  | cons f rest ih =>
    simp only [preflight_hash_check]
    rcases hfind : s.staged.find? (fun e => e.hash == f.hash) with _ | e
    · simp only [hfind]
      exact ih s tr
    · simp only [hfind]
      rcases hgood : e.good with _ | _
      · simp only [hgood, Bool.false_eq_true, if_false]
        obtain ⟨d, hd, hall⟩ := ih
          { s with staged := s.staged.filter (fun e2 => e2.hash != f.hash) }
          (tr ++ [Ev.unlinkStaged f.hash])
        refine ⟨Ev.unlinkStaged f.hash :: d, ?_, ?_⟩
        · rw [hd]
          simp
        · intro x hx
          rcases List.mem_cons.mp hx with rfl | hx
          · exact ⟨f.hash, rfl⟩
          · exact hall x hx
      · simp only [hgood, if_true]
        exact ih s tr

theorem preflight_sys (files : List SwupdFile) (s : Sys) (tr : List Ev) :
    (preflight_hash_check files s tr).1.target = s.target ∧
    (preflight_hash_check files s tr).1.tracked = s.tracked := by
  induction files generalizing s tr with
  | nil => exact ⟨rfl, rfl⟩
  | cons f rest ih =>
    simp only [preflight_hash_check]
    rcases hfind : s.staged.find? (fun e => e.hash == f.hash) with _ | e
    · simp only [hfind]
      exact ih s tr
    · simp only [hfind]
      rcases hgood : e.good with _ | _
      · simp only [hgood, Bool.false_eq_true, if_false]
        exact ih _ _
      · simp only [hgood, if_true]
        exact ih s tr

/-! ### Helper lemmas: the two-phase installation section -/

theorem stagingLoop_trace (env : InstallEnv) (files acc : List SwupdFile)
    (tr : List Ev) :
    ∃ d, (stagingLoop env files acc tr).2.1 = tr ++ d ∧
      ∀ e ∈ d, ∃ p, e = Ev.stage p := by
  induction files generalizing acc tr with
  | nil => exact ⟨[], by simp [stagingLoop], by simp⟩
  | cons f rest ih =>
    simp only [stagingLoop]
    rcases hskip : skipFile f with _ | _
    · simp only [hskip, Bool.false_eq_true, if_false]
      rcases hok : env.stage_ok f.filename with _ | _
      · simp only [hok, Bool.false_eq_true, if_false]
        exact ⟨[Ev.stage f.filename], rfl, by simp⟩
      · simp only [hok, if_true]
        obtain ⟨d, hd, hall⟩ := ih (acc ++ [if f.is_dir || env.fix_path_staged
          f.filename then f else { f with staging := some (f.filename ++ ".update") }])
          (tr ++ [Ev.stage f.filename])
        refine ⟨Ev.stage f.filename :: d, ?_, ?_⟩
        · rw [hd]
          simp
        · intro x hx
          rcases List.mem_cons.mp hx with rfl | hx
          · exact ⟨f.filename, rfl⟩
          · exact hall x hx
    · simp only [hskip, if_true]
      exact ih (acc ++ [f]) tr

theorem renameLoop_trace (mom_files files : List SwupdFile) (s : Sys)
    (tr : List Ev) :
    ∃ d, (renameLoop mom_files files s tr).2 = tr ++ d ∧
      ∀ e ∈ d, ∃ p, e = Ev.rename p := by
  induction files generalizing s tr with
  | nil => exact ⟨[], by simp [renameLoop], by simp⟩
  | cons f rest ih =>
    simp only [renameLoop]
    rcases hskip : skipFile f with _ | _
    · simp only [hskip, Bool.false_eq_true, if_false]
      obtain ⟨d, hd, hall⟩ := ih
        (rename_staged_file_to_final s (resolve_staged mom_files f))
        (tr ++ [Ev.rename (resolve_staged mom_files f).filename])
      refine ⟨Ev.rename (resolve_staged mom_files f).filename :: d, ?_, ?_⟩
      · rw [hd]
        simp
      · intro x hx
        rcases List.mem_cons.mp hx with rfl | hx
        · exact ⟨(resolve_staged mom_files f).filename, rfl⟩
        · exact hall x hx
    · simp only [hskip, if_true]
      exact ih s tr

theorem rename_staged_sys (s : Sys) (f : SwupdFile) :
    (rename_staged_file_to_final s f).tracked = s.tracked ∧
    (rename_staged_file_to_final s f).staged = s.staged := by
  unfold rename_staged_file_to_final
  split <;> exact ⟨rfl, rfl⟩

theorem rename_staged_target_mono (s : Sys) (f : SwupdFile) (p : String)
    (hp : p ∈ s.target) : p ∈ (rename_staged_file_to_final s f).target := by
  unfold rename_staged_file_to_final
  split
  · exact hp
  · exact List.mem_cons_of_mem _ hp

theorem rename_staged_target_self (s : Sys) (f : SwupdFile) :
    f.filename ∈ (rename_staged_file_to_final s f).target := by
  unfold rename_staged_file_to_final
  split
  · next h => simpa using h
  · exact List.mem_cons_self _ _

theorem renameLoop_sys (mom_files files : List SwupdFile) (s : Sys)
    (tr : List Ev) :
    (renameLoop mom_files files s tr).1.tracked = s.tracked ∧
    (renameLoop mom_files files s tr).1.staged = s.staged := by
  induction files generalizing s tr with
  | nil => exact ⟨rfl, rfl⟩
  | cons f rest ih =>
    simp only [renameLoop]
    rcases hskip : skipFile f with _ | _
    · simp only [hskip, Bool.false_eq_true, if_false]
      obtain ⟨h1, h2⟩ := ih
        (rename_staged_file_to_final s (resolve_staged mom_files f))
        (tr ++ [Ev.rename (resolve_staged mom_files f).filename])
      obtain ⟨r1, r2⟩ := rename_staged_sys s (resolve_staged mom_files f)
      exact ⟨by rw [h1, r1], by rw [h2, r2]⟩
    · simp only [hskip, if_true]
      exact ih s tr

theorem renameLoop_target_mono (mom_files files : List SwupdFile) (s : Sys)
    (tr : List Ev) (p : String) (hp : p ∈ s.target) :
    p ∈ (renameLoop mom_files files s tr).1.target := by
  induction files generalizing s tr with
  | nil => exact hp
  | cons f rest ih =>
    simp only [renameLoop]
    rcases hskip : skipFile f with _ | _
    · simp only [hskip, Bool.false_eq_true, if_false]
      exact ih _ _ (rename_staged_target_mono _ _ _ hp)
    · simp only [hskip, if_true]
      exact ih s tr hp

/-- The record Phase B passes to `rename_staged_file_to_final` keeps the
plan record's path: `search_file_in_manifest` looks the record up by its
filename. -/
theorem resolve_staged_filename (mom_files : List SwupdFile) (f : SwupdFile) :
    (resolve_staged mom_files f).filename = f.filename := by
  unfold resolve_staged
  split
  · rcases hfind : mom_files.find? (fun g => g.filename == f.filename) with _ | g
    · simp [hfind]
    · have := List.find?_some hfind
      rw [beq_iff_eq] at this
      simp [hfind, this]
  · rfl

theorem renameLoop_target_mem (mom_files files : List SwupdFile) (s : Sys)
    (tr : List Ev) (f : SwupdFile) (hf : f ∈ files)
    (hskip : skipFile f = false) :
    f.filename ∈ (renameLoop mom_files files s tr).1.target := by
  induction files generalizing s tr with
  | nil => cases hf
  | cons g rest ih =>
    simp only [renameLoop]
    rcases List.mem_cons.mp hf with rfl | hfr
    · simp only [hskip, Bool.false_eq_true, if_false]
      apply renameLoop_target_mono
      have hn := resolve_staged_filename mom_files f
      rw [← hn]
      exact rename_staged_target_self s (resolve_staged mom_files f)
    · rcases hsg : skipFile g with _ | _
      · simp only [hsg, Bool.false_eq_true, if_false]
        exact ih _ _ hfr
      · simp only [hsg, if_true]
        exact ih _ _ hfr

theorem installPhase_trace (env : InstallEnv) (mom_files files : List SwupdFile)
    (s : Sys) (tr : List Ev) :
    ∃ d, (installPhase env mom_files files s tr).trace = tr ++ d ∧
      ∀ e ∈ d, (∃ p, e = Ev.stage p) ∨ (∃ p, e = Ev.rename p) ∨ e = Ev.sync := by
  simp only [installPhase]
  obtain ⟨d1, hd1, hall1⟩ := stagingLoop_trace env files [] tr
  split
  · obtain ⟨d2, hd2, hall2⟩ := renameLoop_trace mom_files
      (stagingLoop env files [] tr).1 s (stagingLoop env files [] tr).2.1
    refine ⟨d1 ++ d2 ++ [Ev.sync], ?_, ?_⟩
    · rw [hd2, hd1]
      simp
    · intro e he
      simp only [List.mem_append, List.mem_singleton] at he
      rcases he with (he | he) | rfl
      · exact Or.inl (hall1 e he)
      · exact Or.inr (Or.inl (hall2 e he))
      · exact Or.inr (Or.inr rfl)
  · refine ⟨d1, hd1, fun e he => Or.inl (hall1 e he)⟩

theorem installPhase_sys (env : InstallEnv) (mom_files files : List SwupdFile)
    (s : Sys) (tr : List Ev) :
    (installPhase env mom_files files s tr).sys.tracked = s.tracked ∧
    (installPhase env mom_files files s tr).sys.staged = s.staged := by
  simp only [installPhase]
  split
  · exact renameLoop_sys _ _ _ _
  · exact ⟨rfl, rfl⟩

/-! ### Helper lemmas: the out block -/

theorem outStep_target (bundles : List String) (acc : Nat × Nat × Sys × List Ev)
    (m : Manifest) : (outStep bundles acc m).2.2.1.target = acc.2.2.1.target := by
  unfold outStep
  split
  · split
    · exact track_installed_target _ _ _
    · rfl
  · rfl

theorem outStep_staged (bundles : List String) (acc : Nat × Nat × Sys × List Ev)
    (m : Manifest) : (outStep bundles acc m).2.2.1.staged = acc.2.2.1.staged := by
  unfold outStep
  split
  · split
    · exact track_installed_staged _ _ _
    · rfl
  · rfl

theorem out_fold_target (ms : List Manifest) (bundles : List String)
    (acc : Nat × Nat × Sys × List Ev) :
    ((ms.foldl (outStep bundles) acc)).2.2.1.target = acc.2.2.1.target := by
  induction ms generalizing acc with
  | nil => rfl
  | cons m rest ih =>
    rw [List.foldl_cons, ih, outStep_target]

theorem out_fold_staged (ms : List Manifest) (bundles : List String)
    (acc : Nat × Nat × Sys × List Ev) :
    ((ms.foldl (outStep bundles) acc)).2.2.1.staged = acc.2.2.1.staged := by
  induction ms generalizing acc with
  | nil => rfl
  | cons m rest ih =>
    rw [List.foldl_cons, ih, outStep_staged]

theorem out_fold_trace (ms : List Manifest) (bundles : List String)
    (acc : Nat × Nat × Sys × List Ev) :
    ∃ d, (ms.foldl (outStep bundles) acc).2.2.2 = acc.2.2.2 ++ d ∧
      ∀ e ∈ d, ∃ b, e = Ev.track b := by
  induction ms generalizing acc with
  | nil => exact ⟨[], by simp, by simp⟩
  | cons m rest ih =>
    rw [List.foldl_cons]
    obtain ⟨d, hd, hall⟩ := ih (outStep bundles acc m)
    have hstep : ∃ d0, (outStep bundles acc m).2.2.2 = acc.2.2.2 ++ d0 ∧
        ∀ e ∈ d0, ∃ b, e = Ev.track b := by
      unfold outStep
      split
      · split
        · refine ⟨[Ev.track m.component], ?_, by simp⟩
          exact track_installed_trace _ _ _
        · exact ⟨[], by simp, by simp⟩
      · exact ⟨[], by simp, by simp⟩
    obtain ⟨d0, hd0, hall0⟩ := hstep
    refine ⟨d0 ++ d, ?_, ?_⟩
    · rw [hd, hd0]
      simp
    · intro e he
      rcases List.mem_append.mp he with he | he
      · exact hall0 e he
      · exact hall e he

theorem out_fold_tracked_mono (ms : List Manifest) (bundles : List String)
    (acc : Nat × Nat × Sys × List Ev) (x : String)
    (hx : x ∈ acc.2.2.1.tracked) :
    x ∈ ((ms.foldl (outStep bundles) acc)).2.2.1.tracked := by
  induction ms generalizing acc with
  | nil => exact hx
  | cons m rest ih =>
    rw [List.foldl_cons]
    apply ih
    unfold outStep
    split
    · split
      · exact track_installed_tracked_mono _ _ _ _ hx
      · exact hx
    · exact hx

theorem install_out_pre (bundles : List String) (to_install : List Manifest)
    (pre : SwupdCode) (flag : Bool) (already : Nat) (s : Sys) (tr : List Ev) :
    (install_out bundles to_install pre flag already s tr).pre_code = pre := rfl

theorem install_out_code (bundles : List String) (to_install : List Manifest)
    (pre : SwupdCode) (flag : Bool) (already : Nat) (s : Sys) (tr : List Ev) :
    (install_out bundles to_install pre flag already s tr).code =
      if flag ∧ pre = SWUPD_OK then SWUPD_INVALID_BUNDLE else pre := rfl

theorem install_out_already (bundles : List String) (to_install : List Manifest)
    (pre : SwupdCode) (flag : Bool) (already : Nat) (s : Sys) (tr : List Ev) :
    (install_out bundles to_install pre flag already s tr).already_installed =
      already := rfl

theorem install_out_sys (bundles : List String) (to_install : List Manifest)
    (pre : SwupdCode) (flag : Bool) (already : Nat) (s : Sys) (tr : List Ev) :
    (install_out bundles to_install pre flag already s tr).sys =
      (to_install.foldl (outStep bundles) (0, 0, s, tr)).2.2.1 := rfl

theorem install_out_trace (bundles : List String) (to_install : List Manifest)
    (pre : SwupdCode) (flag : Bool) (already : Nat) (s : Sys) (tr : List Ev) :
    (install_out bundles to_install pre flag already s tr).trace =
      (to_install.foldl (outStep bundles) (0, 0, s, tr)).2.2.2 := rfl

theorem download_fullfiles_ok (env : InstallEnv) (files : List SwupdFile)
    (s : Sys) (tr : List Ev) :
    (download_fullfiles env files s tr).2 = env.download_ok := by
  unfold download_fullfiles
  rcases h : env.download_ok with _ | _ <;> simp [h]

/-- Trace shape of every `install_bundles` run: a prefix of tracking-file
creations for requested bundles already installed at entry (the warning
loop), then a middle section in which every fetcher invocation precedes every
other event (staged-copy unlinks, staging, renames, the sync), then a suffix
of tracking-file creations (the out block). -/
theorem install_bundles_trace_shape (env : InstallEnv) (s : Sys)
    (bs : List String) :
    ∃ t1 u1 u2 t3, (install_bundles env s bs).trace = t1 ++ (u1 ++ u2) ++ t3 ∧
      (∀ e ∈ t1, ∃ b, e = Ev.track b ∧ is_installed_bundle s b = true) ∧
      (∀ e ∈ u1, e = Ev.fetch) ∧
      (∀ e ∈ u2, (∃ h, e = Ev.unlinkStaged h) ∨ (∃ p, e = Ev.stage p) ∨
        (∃ p, e = Ev.rename p) ∨ e = Ev.sync) ∧
      (∀ e ∈ t3, ∃ b, e = Ev.track b) := by
  obtain ⟨dw, hdw, hallw⟩ := warn_fold_trace bs (0, s, [])
  rw [List.nil_append] at hdw
  simp only [install_bundles]
  split
  · -- no new subscription: out block over the empty to-install list
    rw [install_out_trace]
    refine ⟨dw, [], [], [], ?_, hallw, by simp, by simp, by simp⟩
    simp [hdw]
  · rcases hti : recurse_manifest env
        (add_subscriptions env s env.fuel bs [] false 0).2 with _ | ti
    · simp only [hti]
      rw [install_out_trace]
      refine ⟨dw, [], [], [], ?_, hallw, by simp, by simp, by simp⟩
      simp [hdw]
    · simp only [hti]
      rcases hib : recurse_manifest env (read_subscriptions env
          (bs.foldl warnStep (0, s, [])).2.1) with _ | ib
      · simp only [hib]
        rw [install_out_trace]
        obtain ⟨dq, hdq, hallq⟩ := out_fold_trace ti bs
          (0, 0, (bs.foldl warnStep (0, s, [])).2.1,
            (bs.foldl warnStep (0, s, [])).2.2)
        refine ⟨dw, [], [], dq, ?_, hallw, by simp, by simp, hallq⟩
        rw [hdq, hdw]
        simp
      · simp only [hib]
        split
        · -- disk-space failure
          rw [install_out_trace]
          obtain ⟨dq, hdq, hallq⟩ := out_fold_trace ti bs
            (0, 0, (bs.foldl warnStep (0, s, [])).2.1,
              (bs.foldl warnStep (0, s, [])).2.2)
          refine ⟨dw, [], [], dq, ?_, hallw, by simp, by simp, hallq⟩
          rw [hdq, hdw]
          simp
        · obtain ⟨dp, hdp, hallp⟩ := download_packs_step_trace
            (filter_out_existing_files
              (filter_out_deleted_files (consolidate_files_from_bundles ti))
              (filter_out_deleted_files (consolidate_files_from_bundles ib)))
            (bs.foldl warnStep (0, s, [])).2.1
            (bs.foldl warnStep (0, s, [])).2.2
          split
          · -- download failure
            rw [install_out_trace]
            obtain ⟨dq, hdq, hallq⟩ := out_fold_trace ti bs _
            refine ⟨dw, dp ++ [Ev.fetch], [], dq, ?_, hallw, ?_, by simp, hallq⟩
            · rw [hdq, download_fullfiles_trace, hdp, hdw]
              simp
            · intro e he
              rcases List.mem_append.mp he with he | he
              · exact hallp e he
              · rcases List.mem_singleton.mp he with rfl
                rfl
          · -- full pipeline
            obtain ⟨dpf, hdpf, hallpf⟩ := preflight_trace
              (filter_out_existing_files
                (filter_out_deleted_files (consolidate_files_from_bundles ti))
                (filter_out_deleted_files (consolidate_files_from_bundles ib)))
              (download_fullfiles env _ _ _).1.1 (download_fullfiles env _ _ _).1.2
            obtain ⟨dph, hdph, hallph⟩ := installPhase_trace env
              (consolidate_files_from_bundles ib)
              (filter_out_existing_files
                (filter_out_deleted_files (consolidate_files_from_bundles ti))
                (filter_out_deleted_files (consolidate_files_from_bundles ib)))
              (preflight_hash_check _ _ _).1 (preflight_hash_check _ _ _).2
            split
            · rw [install_out_trace]
              obtain ⟨dq, hdq, hallq⟩ := out_fold_trace ti bs _
              refine ⟨dw, dp ++ [Ev.fetch], dpf ++ dph, dq, ?_, hallw, ?_, ?_,
                hallq⟩
              · rw [hdq, hdph, hdpf, download_fullfiles_trace, hdp, hdw]
                simp
              · intro e he
                rcases List.mem_append.mp he with he | he
                · exact hallp e he
                · rcases List.mem_singleton.mp he with rfl
                  rfl
              · intro e he
                rcases List.mem_append.mp he with he | he
                · obtain ⟨h, rfl⟩ := hallpf e he
                  exact Or.inl ⟨h, rfl⟩
                · rcases hallph e he with h | h | h
                  · exact Or.inr (Or.inl h)
                  · exact Or.inr (Or.inr (Or.inl h))
                  · exact Or.inr (Or.inr (Or.inr h))
            · rw [install_out_trace]
              obtain ⟨dq, hdq, hallq⟩ := out_fold_trace ti bs _
              refine ⟨dw, dp ++ [Ev.fetch], dpf ++ dph, dq, ?_, hallw, ?_, ?_,
                hallq⟩
              · rw [hdq, hdph, hdpf, download_fullfiles_trace, hdp, hdw]
                simp
              · intro e he
                rcases List.mem_append.mp he with he | he
                · exact hallp e he
                · rcases List.mem_singleton.mp he with rfl
                  rfl
              · intro e he
                rcases List.mem_append.mp he with he | he
                · obtain ⟨h, rfl⟩ := hallpf e he
                  exact Or.inl ⟨h, rfl⟩
                · rcases hallph e he with h | h | h
                  · exact Or.inr (Or.inl h)
                  · exact Or.inr (Or.inr (Or.inl h))
                  · exact Or.inr (Or.inr (Or.inr h))

/-- C2: within a single `install_bundles` run, every file of the plan is
staged before any file is renamed, and a filesystem sync follows the full
rename pass: when the staging loop completes (Phase A processes every
record), the installation section's trace is a block of staging events,
then a block of rename events, then the sync — the rename loop does not
begin until the staging loop has processed every record
(bundle.c lines 1006-1073; `install_bundles` runs `installPhase` as its
step 6). -/
theorem C2_stage_before_rename (env : InstallEnv)
    (mom_files files : List SwupdFile) (s : Sys) (tr : List Ev)
    (hok : (stagingLoop env files [] tr).2.2 = true) :
    ∃ a b, (installPhase env mom_files files s tr).trace =
        tr ++ a ++ b ++ [Ev.sync] ∧
      (∀ e ∈ a, ∃ p, e = Ev.stage p) ∧ (∀ e ∈ b, ∃ p, e = Ev.rename p) := by
  simp only [installPhase, hok, if_true]
  obtain ⟨d1, hd1, hall1⟩ := stagingLoop_trace env files [] tr
  obtain ⟨d2, hd2, hall2⟩ := renameLoop_trace mom_files
    (stagingLoop env files [] tr).1 s (stagingLoop env files [] tr).2.1
  refine ⟨d1, d2, ?_, hall1, hall2⟩
  rw [hd2, hd1]

/-- C2 witness: the two-phase section on bundle B's two files stages both,
then renames both, then syncs. -/
theorem C2_witness :
    ∃ a b, (installPhase installEnvPlain [] manifestB.files sysEmpty []).trace =
        [] ++ a ++ b ++ [Ev.sync] ∧
      (∀ e ∈ a, ∃ p, e = Ev.stage p) ∧ (∀ e ∈ b, ∃ p, e = Ev.rename p) :=
  C2_stage_before_rename installEnvPlain [] manifestB.files sysEmpty []
    (by decide)

/-- C9 counterexample: removing `test-bundle` produces the tracking-file
removal BEFORE the file unlinks — `remove_tracked` runs inside the
per-bundle loop (bundle.c line 661) while `remove_files_from_fs` runs after
it (line 680) — refuting the claim that remove deletes the tracking file
only after the bundle's files have been unlinked. -/
theorem C9_counterexample :
    (remove_bundles removeEnvPlain ["test-bundle"]).trace =
      [Ev.untrack "test-bundle", Ev.unlinkFs "/usr/bin/test",
        Ev.unlinkFs (bundleMarker "test-bundle")] ∧
    ¬ untracksAfterUnlinks (remove_bundles removeEnvPlain ["test-bundle"]).trace := by
  refine ⟨by decide, by decide⟩

/-- C9 (amended): install creates a bundle's tracking file only when the
bundle is already installed — at entry (the warning-loop prefix of the
trace) or after the whole stage/rename pass (the out-block suffix; no track
event occurs in between); remove, however, deletes tracking files DURING the
per-bundle planning loop, before any file is unlinked: every `untrack`
event precedes every `unlinkFs` event. -/
theorem C9_tracking_order :
    (∀ (renv : RemoveEnv) (rbs : List String),
      ∃ u1 u2, (remove_bundles renv rbs).trace = u1 ++ u2 ∧
        (∀ e ∈ u1, ∃ b, e = Ev.untrack b) ∧
        (∀ e ∈ u2, ∃ p, e = Ev.unlinkFs p)) ∧
    (∀ (env : InstallEnv) (s : Sys) (bs : List String),
      ∃ t1 t2 t3, (install_bundles env s bs).trace = t1 ++ t2 ++ t3 ∧
        (∀ e ∈ t1, ∃ b, e = Ev.track b ∧ is_installed_bundle s b = true) ∧
        (∀ e ∈ t2, isTrack e = false) ∧
        (∀ e ∈ t3, ∃ b, e = Ev.track b)) := by
  constructor
  · intro renv rbs
    obtain ⟨d, hd, hall⟩ := remove_loop_trace renv rbs
      ⟨SWUPD_OK, 0, 0, renv.submanifests, [], []⟩
    rcases hb : (remove_loop renv rbs
        ⟨SWUPD_OK, 0, 0, renv.submanifests, [], []⟩).bundles_to_remove.isEmpty
        with _ | _
    · refine ⟨d, (files_to_unlink
        (remove_loop renv rbs
          ⟨SWUPD_OK, 0, 0, renv.submanifests, [], []⟩).bundles_to_remove
        (remove_loop renv rbs
          ⟨SWUPD_OK, 0, 0, renv.submanifests, [], []⟩).submanifests).map
          (fun f => Ev.unlinkFs f.filename), ?_, hall, ?_⟩
      · simp only [remove_bundles, hb, Bool.false_eq_true, if_false]
        rw [hd]
        simp
      · intro e he
        obtain ⟨f, _, rfl⟩ := List.mem_map.mp he
        exact ⟨f.filename, rfl⟩
    · refine ⟨d, [], ?_, hall, by simp⟩
      simp only [remove_bundles, hb, if_true]
      rw [hd]
      simp
  · intro env s bs
    obtain ⟨t1, u1, u2, t3, htr, h1, h2, h3, h4⟩ :=
      install_bundles_trace_shape env s bs
    refine ⟨t1, u1 ++ u2, t3, htr, h1, ?_, h4⟩
    intro e he
    rcases List.mem_append.mp he with he | he
    · rw [h2 e he]
      rfl
    · rcases h3 e he with ⟨h, rfl⟩ | ⟨p, rfl⟩ | ⟨p, rfl⟩ | rfl <;> rfl

/-! ### Helper lemmas: the pre-flight hash check (C8) -/

theorem staged_find_unique (l : List StagedEntry) (e : StagedEntry) (h : String)
    (hnd : (l.map (fun x => x.hash)).Nodup) (he : e ∈ l) (hh : e.hash = h) :
    l.find? (fun x => x.hash == h) = some e := by
  induction l with
  | nil => cases he
  | cons a t ih =>
    simp only [List.map_cons, List.nodup_cons] at hnd
    rcases List.mem_cons.mp he with rfl | het
    · rw [List.find?_cons_of_pos]
      simp [hh]
    · have hne : (a.hash == h) = false := by
        rw [beq_eq_false_iff_ne]
        intro hc
        apply hnd.1
        rw [hc, ← hh]
        exact List.mem_map_of_mem _ het
      rw [List.find?_cons_of_neg _ (by simp [hne])]
      exact ih hnd.2 het

theorem nodup_staged_filter (l : List StagedEntry) (p : StagedEntry → Bool)
    (h : (l.map (fun x => x.hash)).Nodup) :
    ((l.filter p).map (fun x => x.hash)).Nodup :=
  List.Nodup.sublist (List.Sublist.map _ (List.filter_sublist _)) h

theorem preflight_staged_sub (files : List SwupdFile) (s : Sys) (tr : List Ev)
    (e : StagedEntry) (he : e ∈ (preflight_hash_check files s tr).1.staged) :
    e ∈ s.staged := by
  induction files generalizing s tr with
  | nil => exact he
  | cons f rest ih =>
    simp only [preflight_hash_check] at he
    rcases hfind : s.staged.find? (fun x => x.hash == f.hash) with _ | e'
    · simp only [hfind] at he
      exact ih _ _ he
    · rcases hgood : e'.good with _ | _
      · simp only [hfind, hgood, Bool.false_eq_true, if_false] at he
        have := ih _ _ he
        exact List.mem_of_mem_filter this
      · simp only [hfind, hgood, if_true] at he
        exact ih _ _ he

theorem preflight_removes_bad (files : List SwupdFile) (s : Sys) (tr : List Ev)
    (hnd : (s.staged.map (fun x => x.hash)).Nodup) (f : SwupdFile)
    (hf : f ∈ files) (e : StagedEntry) (he : e ∈ s.staged)
    (hh : e.hash = f.hash) (hbad : e.good = false) :
    e ∉ (preflight_hash_check files s tr).1.staged ∧
    Ev.unlinkStaged f.hash ∈ (preflight_hash_check files s tr).2 := by
  induction files generalizing s tr with
  | nil => cases hf
  | cons g rest ih =>
    simp only [preflight_hash_check]
    rcases List.mem_cons.mp hf with rfl | hfr
    · simp only [staged_find_unique s.staged e f.hash hnd he hh, hbad,
        Bool.false_eq_true, if_false]
      constructor
      · intro hmem
        have := preflight_staged_sub _ _ _ _ hmem
        have := List.mem_filter.mp this
        rw [bne_iff_ne] at this
        exact this.2 hh
      · obtain ⟨d, hd, _⟩ := preflight_trace rest
          { s with staged := s.staged.filter (fun e2 => e2.hash != f.hash) }
          (tr ++ [Ev.unlinkStaged f.hash])
        rw [hd]
        simp
    · rcases hfind : s.staged.find? (fun x => x.hash == g.hash) with _ | e'
      · simp only [hfind]
        exact ih s tr hnd hfr he
      · rcases hgood : e'.good with _ | _
        · simp only [hfind, hgood, Bool.false_eq_true, if_false]
          by_cases heg : e.hash = g.hash
          · have : s.staged.find? (fun x => x.hash == g.hash) = some e :=
              staged_find_unique s.staged e g.hash hnd he heg
            rw [this] at hfind
            cases hfind
            constructor
            · intro hmem
              have := preflight_staged_sub _ _ _ _ hmem
              have := List.mem_filter.mp this
              rw [bne_iff_ne] at this
              exact this.2 heg
            · obtain ⟨d, hd, _⟩ := preflight_trace rest
                { s with staged := s.staged.filter (fun e2 => e2.hash != g.hash) }
                (tr ++ [Ev.unlinkStaged g.hash])
              rw [hd]
              have : f.hash = g.hash := by rw [← hh, heg]
              rw [this]
              simp
          · have hem : e ∈ s.staged.filter (fun e2 => e2.hash != g.hash) :=
              List.mem_filter.mpr ⟨he, by rw [bne_iff_ne]; exact heg⟩
            exact ih _ _ (nodup_staged_filter _ _ hnd) hfr hem
        · simp only [hfind, hgood, if_true]
          exact ih s tr hnd hfr he

theorem preflight_keeps_good (files : List SwupdFile) (s : Sys) (tr : List Ev)
    (hnd : (s.staged.map (fun x => x.hash)).Nodup) (e : StagedEntry)
    (he : e ∈ s.staged) (hgood : e.good = true) :
    e ∈ (preflight_hash_check files s tr).1.staged := by
  induction files generalizing s tr with
  | nil => exact he
  | cons g rest ih =>
    simp only [preflight_hash_check]
    rcases hfind : s.staged.find? (fun x => x.hash == g.hash) with _ | e'
    · simp only [hfind]
      exact ih s tr hnd he
    · rcases hgood' : e'.good with _ | _
      · simp only [hfind, hgood', Bool.false_eq_true, if_false]
        have heg : e.hash ≠ g.hash := by
          intro hc
          have : s.staged.find? (fun x => x.hash == g.hash) = some e :=
            staged_find_unique s.staged e g.hash hnd he hc
          rw [this] at hfind
          cases hfind
          rw [hgood] at hgood'
          cases hgood'
        have hem : e ∈ s.staged.filter (fun e2 => e2.hash != g.hash) :=
          List.mem_filter.mpr ⟨he, by rw [bne_iff_ne]; exact heg⟩
        exact ih _ _ (nodup_staged_filter _ _ hnd) hem
      · simp only [hfind, hgood', if_true]
        exact ih s tr hnd he

theorem preflight_keeps_unreferenced (files : List SwupdFile) (s : Sys)
    (tr : List Ev) (e : StagedEntry) (he : e ∈ s.staged)
    (href : ∀ f ∈ files, f.hash ≠ e.hash) :
    e ∈ (preflight_hash_check files s tr).1.staged := by
  induction files generalizing s tr with
  | nil => exact he
  | cons g rest ih =>
    simp only [preflight_hash_check]
    have href' : ∀ f ∈ rest, f.hash ≠ e.hash := fun f hf =>
      href f (List.mem_cons_of_mem _ hf)
    rcases hfind : s.staged.find? (fun x => x.hash == g.hash) with _ | e'
    · simp only [hfind]
      exact ih s tr he href'
    · rcases hgood' : e'.good with _ | _
      · simp only [hfind, hgood', Bool.false_eq_true, if_false]
        have hem : e ∈ s.staged.filter (fun e2 => e2.hash != g.hash) := by
          refine List.mem_filter.mpr ⟨he, ?_⟩
          rw [bne_iff_ne]
          intro hc
          exact href g (List.mem_cons_self _ _) (by rw [hc])
        exact ih _ _ hem href'
      · simp only [hfind, hgood', if_true]
        exact ih s tr he href'

/-- C8 counterexample: installing B with a corrupt staged copy of its
payload (hash `hb`, bad digest).  The staged copy IS unlinked during the
pre-flight loop, but the download steps (bundle.c steps 4-5, lines 936-963)
run BEFORE the pre-flight check (step 6, lines 971-1004) and nothing fetches
afterward, so the file is NOT re-fetched before Phase A proceeds — the trace
has no fetch event after the unlink and before the staging events. -/
theorem C8_counterexample :
    Ev.unlinkStaged "hb" ∈
      (install_bundles installEnvCorrupt sysCorruptStage ["B"]).trace ∧
    ¬ refetchedBeforeStaging
      (install_bundles installEnvCorrupt sysCorruptStage ["B"]).trace := by
  exact ⟨by decide, by decide⟩

/-- C8 (amended): for every planned file whose hash names a staged entry, the
pre-flight check (which runs before Phase A begins) verifies the digest and
unlinks the entry when it does not match, so that a LATER invocation can
re-download it; entries with a matching digest and entries whose hash no
planned file references are left in place, and files absent from the staging
area are skipped.  No re-fetch happens in the same invocation: in every
`install_bundles` trace, all fetcher invocations precede all staged-copy
unlinks. -/
theorem C8_preflight_unlink (files : List SwupdFile) (s : Sys) (tr : List Ev)
    (hnd : (s.staged.map (fun x => x.hash)).Nodup) :
    (∀ f ∈ files, ∀ e ∈ s.staged, e.hash = f.hash → e.good = false →
      e ∉ (preflight_hash_check files s tr).1.staged ∧
      Ev.unlinkStaged f.hash ∈ (preflight_hash_check files s tr).2) ∧
    (∀ e ∈ s.staged, e.good = true →
      e ∈ (preflight_hash_check files s tr).1.staged) ∧
    (∀ e ∈ s.staged, (∀ f ∈ files, f.hash ≠ e.hash) →
      e ∈ (preflight_hash_check files s tr).1.staged) ∧
    (∀ (env : InstallEnv) (s' : Sys) (bs : List String),
      ∃ v1 v2, (install_bundles env s' bs).trace = v1 ++ v2 ∧
        (∀ e ∈ v1, isUnlinkStaged e = false) ∧ (∀ e ∈ v2, isFetch e = false)) := by
  refine ⟨fun f hf e he hh hbad =>
      preflight_removes_bad files s tr hnd f hf e he hh hbad,
    fun e he hgood => preflight_keeps_good files s tr hnd e he hgood,
    fun e he href => preflight_keeps_unreferenced files s tr e he href,
    fun env s' bs => ?_⟩
  obtain ⟨t1, u1, u2, t3, htr, h1, h2, h3, h4⟩ :=
    install_bundles_trace_shape env s' bs
  refine ⟨t1 ++ u1, u2 ++ t3, ?_, ?_, ?_⟩
  · rw [htr]
    simp
  · intro e he
    rcases List.mem_append.mp he with he | he
    · obtain ⟨b, rfl, _⟩ := h1 e he
      rfl
    · rw [h2 e he]
      rfl
  · intro e he
    rcases List.mem_append.mp he with he | he
    · rcases h3 e he with ⟨h, rfl⟩ | ⟨p, rfl⟩ | ⟨p, rfl⟩ | rfl <;> rfl
    · obtain ⟨b, rfl⟩ := h4 e he
      rfl

/-! ### Helper lemmas: warning-loop effects survive to the end of the run -/

theorem download_packs_step_tracked (files : List SwupdFile) (s : Sys)
    (tr : List Ev) :
    (download_packs_step files s tr).1.tracked = s.tracked :=
  (download_packs_step_sys files s tr).2

theorem download_fullfiles_tracked (env : InstallEnv) (files : List SwupdFile)
    (s : Sys) (tr : List Ev) :
    (download_fullfiles env files s tr).1.1.tracked = s.tracked :=
  (download_fullfiles_sys env files s tr).2

theorem preflight_tracked (files : List SwupdFile) (s : Sys) (tr : List Ev) :
    (preflight_hash_check files s tr).1.tracked = s.tracked :=
  (preflight_sys files s tr).2

theorem installPhase_tracked (env : InstallEnv)
    (mom_files files : List SwupdFile) (s : Sys) (tr : List Ev) :
    (installPhase env mom_files files s tr).sys.tracked = s.tracked :=
  (installPhase_sys env mom_files files s tr).1

/-- Every branch of `install_bundles` funnels through the out block with the
warning loop's already-installed count, a system whose tracking directory is
the warning loop's, and a trace extending the warning loop's trace. -/
theorem install_bundles_out_form (env : InstallEnv) (s : Sys)
    (bundles : List String) :
    ∃ pre flag to_install s2 tr2,
      install_bundles env s bundles =
        install_out bundles to_install pre flag
          (bundles.foldl warnStep (0, s, [])).1 s2 tr2 ∧
      s2.tracked = (bundles.foldl warnStep (0, s, [])).2.1.tracked ∧
      ∃ d, tr2 = (bundles.foldl warnStep (0, s, [])).2.2 ++ d := by
  simp only [install_bundles]
  split
  · exact ⟨_, _, _, _, _, rfl, rfl, [], by simp⟩
  · rcases hti : recurse_manifest env
        (add_subscriptions env s env.fuel bundles [] false 0).2 with _ | ti
    · simp only [hti]
      exact ⟨_, _, _, _, _, rfl, rfl, [], by simp⟩
    · simp only [hti]
      rcases hib : recurse_manifest env (read_subscriptions env
          (bundles.foldl warnStep (0, s, [])).2.1) with _ | ib
      · simp only [hib]
        exact ⟨_, _, _, _, _, rfl, rfl, [], by simp⟩
      · simp only [hib]
        split
        · exact ⟨_, _, _, _, _, rfl, rfl, [], by simp⟩
        · split
          · refine ⟨_, _, _, _, _, rfl, ?_, ?_⟩
            · simp only [download_fullfiles_tracked,
                download_packs_step_tracked]
            · obtain ⟨dp, hdp, _⟩ := download_packs_step_trace _ _ _
              exact ⟨dp ++ [Ev.fetch],
                by rw [download_fullfiles_trace, hdp, List.append_assoc]⟩
          · split
            · refine ⟨_, _, _, _, _, rfl, ?_, ?_⟩
              · simp only [installPhase_tracked, preflight_tracked,
                  download_fullfiles_tracked, download_packs_step_tracked]
              · obtain ⟨dp, hdp, _⟩ := download_packs_step_trace _ _ _
                obtain ⟨dpf, hdpf, _⟩ := preflight_trace _ _ _
                obtain ⟨dph, hdph, _⟩ := installPhase_trace _ _ _ _ _
                refine ⟨dp ++ [Ev.fetch] ++ dpf ++ dph, ?_⟩
                rw [hdph, hdpf, download_fullfiles_trace, hdp]
                simp
            · refine ⟨_, _, _, _, _, rfl, ?_, ?_⟩
              · simp only [installPhase_tracked, preflight_tracked,
                  download_fullfiles_tracked, download_packs_step_tracked]
              · obtain ⟨dp, hdp, _⟩ := download_packs_step_trace _ _ _
                obtain ⟨dpf, hdpf, _⟩ := preflight_trace _ _ _
                obtain ⟨dph, hdph, _⟩ := installPhase_trace _ _ _ _ _
                refine ⟨dp ++ [Ev.fetch] ++ dpf ++ dph, ?_⟩
                rw [hdph, hdpf, download_fullfiles_trace, hdp]
                simp

/-- With `find_all` false (the top-level install call, bundle.c line 812),
`add_subscriptions` never appends an installed bundle to the subscription
list — at any recursion depth, since `find_all` is passed down unchanged
(lines 741-743). -/
theorem addsub_not_added_installed (env : InstallEnv) (s : Sys) :
    ∀ (fuel : Nat) (bs subs : List String) (recursion : Nat) (x : String),
      x ∈ (add_subscriptions env s fuel bs subs false recursion).2 →
      is_installed_bundle s x = true → x ∈ subs := by
  intro fuel
  induction fuel with
  | zero => intro bs subs recursion x hx _; exact hx
  | succ fuel ih =>
    intro bs subs recursion x hx hinst
    cases bs with
    | nil => exact hx
    | cons b rest =>
      simp only [add_subscriptions] at hx
      rcases hsb : search_bundle_in_manifest env b with _ | file
      · simp only [hsb] at hx
        exact ih rest subs recursion x hx hinst
      · simp only [hsb, Bool.false_eq_true, not_false_iff, true_and] at hx
        rcases hbi : is_installed_bundle s b with _ | _
        · simp only [hbi, Bool.false_eq_true, if_false] at hx
          rcases hm : file.manifest with _ | manifest
          · simp only [hm] at hx
            exact hx
          · simp only [hm] at hx
            split at hx
            · exact ih rest subs recursion x hx hinst
            · have h1 := ih rest _ recursion x hx hinst
              split at h1
              · split at h1
                · split at h1
                  · exact h1
                  · rcases List.mem_append.mp h1 with h1 | h1
                    · exact h1
                    · rcases List.mem_singleton.mp h1 with rfl
                      rw [hinst] at hbi
                      cases hbi
                · have h2 := ih _ _ _ x h1 hinst
                  split at h2
                  · exact h2
                  · rcases List.mem_append.mp h2 with h2 | h2
                    · exact h2
                    · rcases List.mem_singleton.mp h2 with rfl
                      rw [hinst] at hbi
                      cases hbi
              · have h2 := ih _ _ _ x h1 hinst
                split at h2
                · split at h2
                  · exact h2
                  · rcases List.mem_append.mp h2 with h2 | h2
                    · exact h2
                    · rcases List.mem_singleton.mp h2 with rfl
                      rw [hinst] at hbi
                      cases hbi
                · have h3 := ih _ _ _ x h2 hinst
                  split at h3
                  · exact h3
                  · rcases List.mem_append.mp h3 with h3 | h3
                    · exact h3
                    · rcases List.mem_singleton.mp h3 with rfl
                      rw [hinst] at hbi
                      cases hbi
        · simp only [hbi, if_true] at hx
          exact ih rest subs recursion x hx hinst

/-! ### Helper lemmas: the invalid-bundle flag and the success path (C5) -/

theorem contains_of_mem (l : List String) (a : String) (h : a ∈ l) :
    l.contains a = true := by
  induction l with
  | nil => cases h
  | cons b t ih =>
    rcases List.mem_cons.mp h with rfl | h
    · simp [List.contains_cons]
    · rw [List.contains_cons, ih h, Bool.or_true]

/-- An `|=` of a per-node result into a recursive result keeps the badname
and error bits. -/
theorem addsub_or_carry (a : AddSubRet) (r : AddSubRet × List String)
    (h : r.1.badname = true ∨ r.1.err = true) :
    (AddSubRet.or a r.1, r.2).1.badname = true ∨
    (AddSubRet.or a r.1, r.2).1.err = true := by
  rcases h with h | h
  · exact Or.inl (by simp [AddSubRet.or, h])
  · exact Or.inr (by simp [AddSubRet.or, h])

/-- A missing MoM name anywhere in the processed list raises the badname bit
(bundle.c lines 735-739), unless the run died earlier with the error bit. -/
theorem addsub_badname_of_missing (env : InstallEnv) (s : Sys) :
    ∀ (fuel : Nat) (bs subs : List String) (recursion : Nat) (z : String),
      z ∈ bs → search_bundle_in_manifest env z = none →
      (add_subscriptions env s fuel bs subs false recursion).1.badname = true ∨
      (add_subscriptions env s fuel bs subs false recursion).1.err = true := by
  intro fuel
  induction fuel with
  | zero => intro bs subs recursion z _ _; exact Or.inr rfl
  | succ fuel ih =>
    intro bs subs recursion z hz hmiss
    cases bs with
    | nil => cases hz
    | cons b rest =>
      simp only [add_subscriptions]
      rcases List.mem_cons.mp hz with rfl | hzr
      · simp only [hmiss]
        exact Or.inl rfl
      · rcases hsb : search_bundle_in_manifest env b with _ | file
        · simp only [hsb]
          exact addsub_or_carry _ _ (ih rest subs recursion z hzr hmiss)
        · simp only [hsb, Bool.false_eq_true, not_false_iff, true_and]
          rcases hbi : is_installed_bundle s b with _ | _
          · simp only [hbi, Bool.false_eq_true, if_false]
            rcases hm : file.manifest with _ | manifest
            · simp only [hm]
              exact Or.inr trivial
            · simp only [hm]
              split
              · exact ih rest subs recursion z hzr hmiss
              · exact addsub_or_carry _ _ (ih rest _ recursion z hzr hmiss)
          · simp only [hbi, if_true]
            exact ih rest subs recursion z hzr hmiss

theorem stagingLoop_acc_mono (env : InstallEnv) (files : List SwupdFile) :
    ∀ (acc : List SwupdFile) (tr : List Ev) (x : SwupdFile), x ∈ acc →
      x ∈ (stagingLoop env files acc tr).1 := by
  induction files with
  | nil => intro acc tr x hx; exact hx
  | cons f rest ih =>
    intro acc tr x hx
    simp only [stagingLoop]
    rcases hskip : skipFile f with _ | _
    · simp only [hskip, Bool.false_eq_true, if_false]
      rcases hok : env.stage_ok f.filename with _ | _
      · simp only [hok, Bool.false_eq_true, if_false]
        exact List.mem_append_left _ hx
      · simp only [hok, if_true]
        exact ih _ _ x (List.mem_append_left _ hx)
    · simp only [hskip, if_true]
      exact ih _ _ x (List.mem_append_left _ hx)

/-- When Phase A processed every record, each non-skipped plan record has a
staged counterpart (same path, same skip status) in the loop's output. -/
theorem stagingLoop_mem (env : InstallEnv) (files : List SwupdFile) :
    ∀ (acc : List SwupdFile) (tr : List Ev) (f : SwupdFile), f ∈ files →
      (stagingLoop env files acc tr).2.2 = true →
      ∃ f', f' ∈ (stagingLoop env files acc tr).1 ∧
        f'.filename = f.filename ∧ skipFile f' = skipFile f := by
  induction files with
  | nil => intro acc tr f hf; cases hf
  | cons g rest ih =>
    intro acc tr f hf hok
    simp only [stagingLoop] at hok ⊢
    rcases hskip : skipFile g with _ | _
    · simp only [hskip, Bool.false_eq_true, if_false] at hok ⊢
      rcases hsok : env.stage_ok g.filename with _ | _
      · simp only [hsok, Bool.false_eq_true, if_false] at hok
      · simp only [hsok, if_true] at hok ⊢
        rcases List.mem_cons.mp hf with heq | hfr
        · refine ⟨if g.is_dir || env.fix_path_staged g.filename then g
            else { g with staging := some (g.filename ++ ".update") },
            ?_, ?_, ?_⟩
          · apply stagingLoop_acc_mono
            exact List.mem_append_right _ (List.mem_singleton.mpr rfl)
          · rw [heq]
            split <;> rfl
          · rw [heq]
            split <;> rfl
        · exact ih _ _ f hfr hok
    · simp only [hskip, if_true] at hok ⊢
      rcases List.mem_cons.mp hf with heq | hfr
      · refine ⟨g, ?_, ?_, ?_⟩
        · apply stagingLoop_acc_mono
          exact List.mem_append_right _ (List.mem_singleton.mpr rfl)
        · rw [heq]
        · rw [heq]
      · exact ih _ _ f hfr hok

theorem installPhase_ok (env : InstallEnv) (mom_files files : List SwupdFile)
    (s : Sys) (tr : List Ev) :
    (installPhase env mom_files files s tr).ok =
      (stagingLoop env files [] tr).2.2 := by
  simp only [installPhase]
  split
  · next h => exact h.symm
  · next h => exact (Bool.eq_false_iff.mpr h).symm

theorem installPhase_sys_of_ok (env : InstallEnv)
    (mom_files files : List SwupdFile) (s : Sys) (tr : List Ev)
    (h : (stagingLoop env files [] tr).2.2 = true) :
    (installPhase env mom_files files s tr).sys =
      (renameLoop mom_files (stagingLoop env files [] tr).1 s
        (stagingLoop env files [] tr).2.1).1 := by
  simp only [installPhase]
  split
  · rfl
  · next hn => exact absurd h hn

theorem install_out_target (bundles : List String)
    (to_install : List Manifest) (pre : SwupdCode) (flag : Bool)
    (already : Nat) (s : Sys) (tr : List Ev) :
    (install_out bundles to_install pre flag already s tr).sys.target =
      s.target := by
  rw [install_out_sys, out_fold_target]

/-- C5: a request list mixing valid names with a name `z` absent from the MoM
sets the badname bit; when the rest of the run succeeds (`ret` is `SWUPD_OK`
at the out block's final check), the exit code is `SWUPD_INVALID_BUNDLE`
rather than `SWUPD_OK` (bundle.c lines 1137-1139), while the valid bundles
were installed: every non-skipped record of the computed plan is at its final
path in the target tree, and in particular a to-install bundle whose live
marker record survives consolidation (and which no installed manifest
claims) is installed in the final system. -/
theorem C5_invalid_flag_survives (env : InstallEnv) (s : Sys)
    (bundles : List String) (z : String) (ti ib : List Manifest)
    (hz : z ∈ bundles)
    (hmiss : search_bundle_in_manifest env z = none)
    (herr : (add_subscriptions env s env.fuel bundles [] false 0).1.err =
      false)
    (hti : recurse_manifest env
      (add_subscriptions env s env.fuel bundles [] false 0).2 = some ti)
    (hib : recurse_manifest env
      (read_subscriptions env (bundles.foldl warnStep (0, s, [])).2.1) =
        some ib)
    (hpre : (install_bundles env s bundles).pre_code = SWUPD_OK) :
    (install_bundles env s bundles).code = SWUPD_INVALID_BUNDLE ∧
    (install_bundles env s bundles).code ≠ SWUPD_OK ∧
    (∀ f ∈ filter_out_existing_files
        (filter_out_deleted_files (consolidate_files_from_bundles ti))
        (filter_out_deleted_files (consolidate_files_from_bundles ib)),
      skipFile f = false →
      f.filename ∈ (install_bundles env s bundles).sys.target) ∧
    (∀ v, (∃ fm ∈ (ti.map Manifest.files).flatten,
        fm.filename = bundleMarker v ∧ fm.is_deleted = false) →
      (∀ g ∈ (ti.map Manifest.files).flatten,
        g.filename = bundleMarker v → skipFile g = false) →
      (∀ g ∈ consolidate_files_from_bundles ib,
        g.filename ≠ bundleMarker v) →
      is_installed_bundle (install_bundles env s bundles).sys v = true) := by
  have hbad : (add_subscriptions env s env.fuel bundles [] false 0).1.badname
      = true := by
    rcases addsub_badname_of_missing env s env.fuel bundles [] 0 z hz hmiss
      with h | h
    · exact h
    · rw [herr] at h
      cases h
  revert hpre
  simp only [install_bundles, hti, hib]
  split
  · intro hpre
    rw [install_out_pre] at hpre
    simp [herr, hbad] at hpre
  · split
    · intro hpre
      rw [install_out_pre] at hpre
      exact absurd hpre (by decide)
    · split
      · intro hpre
        rw [install_out_pre] at hpre
        exact absurd hpre (by decide)
      · split
        · next hok =>
          intro _hpre
          have hstage := (installPhase_ok env _ _ _ _).symm.trans hok
          refine ⟨?_, ?_, ?_, ?_⟩
          · rw [install_out_code, hbad, if_pos ⟨rfl, rfl⟩]
          · rw [install_out_code, hbad, if_pos ⟨rfl, rfl⟩]
            decide
          · intro f hf hskip
            rw [install_out_target,
              installPhase_sys_of_ok env _ _ _ _ hstage]
            obtain ⟨f', hf'mem, hf'name, hf'skip⟩ :=
              stagingLoop_mem env _ [] _ f hf hstage
            rw [← hf'name]
            exact renameLoop_target_mem _ _ _ _ f' hf'mem
              (hf'skip.trans hskip)
          · intro v hfm hall hnotin
            obtain ⟨w, hw, hwname, hwdel⟩ := consolidateRecords_keeps_live
              ((ti.map Manifest.files).flatten) (bundleMarker v) hfm
            have hwflat : w ∈ (ti.map Manifest.files).flatten :=
              mem_of_mem_consolidateRecords _ _ hw
            have hwskip : skipFile w = false := hall w hwflat hwname
            have hw1 : w ∈ filter_out_deleted_files
                (consolidate_files_from_bundles ti) := by
              refine List.mem_filter.mpr ⟨hw, ?_⟩
              rw [hwdel]
              rfl
            have hw2 : w ∈ filter_out_existing_files
                (filter_out_deleted_files (consolidate_files_from_bundles ti))
                (filter_out_deleted_files
                  (consolidate_files_from_bundles ib)) := by
              refine List.mem_filter.mpr ⟨hw1, ?_⟩
              show (! (filter_out_deleted_files
                (consolidate_files_from_bundles ib)).any
                (fun g => g.filename == w.filename && g.hash == w.hash)) = true
              have hany : ((filter_out_deleted_files
                  (consolidate_files_from_bundles ib)).any
                  (fun g => g.filename == w.filename && g.hash == w.hash)) =
                    false := by
                refine List.any_eq_false.mpr ?_
                intro g hg hc
                have hc' : (g.filename == w.filename && g.hash == w.hash) =
                  true := hc
                rw [Bool.and_eq_true, beq_iff_eq] at hc'
                exact hnotin g (List.mem_of_mem_filter hg)
                  (hc'.1.trans hwname)
              rw [hany]
              rfl
            unfold is_installed_bundle
            apply contains_of_mem
            rw [install_out_target,
              installPhase_sys_of_ok env _ _ _ _ hstage]
            obtain ⟨f', hf'mem, hf'name, hf'skip⟩ :=
              stagingLoop_mem env _ [] _ w hw2 hstage
            rw [← hwname, ← hf'name]
            exact renameLoop_target_mem _ _ _ _ f' hf'mem
              (hf'skip.trans hwskip)
        · intro hpre
          rw [install_out_pre] at hpre
          exact absurd hpre (by decide)

/-- C5 witness: requesting A together with the unknown name zzz from the
empty system; A is installed and the exit code is `SWUPD_INVALID_BUNDLE`. -/
theorem C5_witness :
    (install_bundles installEnvPlain sysEmpty ["A", "zzz"]).code =
      SWUPD_INVALID_BUNDLE ∧
    (install_bundles installEnvPlain sysEmpty ["A", "zzz"]).code ≠
      SWUPD_OK ∧
    (∀ f ∈ filter_out_existing_files
        (filter_out_deleted_files (consolidate_files_from_bundles [manifestA]))
        (filter_out_deleted_files (consolidate_files_from_bundles [])),
      skipFile f = false →
      f.filename ∈
        (install_bundles installEnvPlain sysEmpty ["A", "zzz"]).sys.target) ∧
    (∀ v, (∃ fm ∈ ([manifestA].map Manifest.files).flatten,
        fm.filename = bundleMarker v ∧ fm.is_deleted = false) →
      (∀ g ∈ ([manifestA].map Manifest.files).flatten,
        g.filename = bundleMarker v → skipFile g = false) →
      (∀ g ∈ consolidate_files_from_bundles ([] : List Manifest),
        g.filename ≠ bundleMarker v) →
      is_installed_bundle
        (install_bundles installEnvPlain sysEmpty ["A", "zzz"]).sys v =
          true) :=
  C5_invalid_flag_survives installEnvPlain sysEmpty ["A", "zzz"] "zzz"
    [manifestA] [] (by decide) (by rfl) (by decide) (by decide) (by decide)
    (by decide)

/-- C10: a requested bundle already installed at entry is promoted to
manually-installed and reported: the warning loop (bundle.c lines 819-835)
records a `track` event for it and its name is in the final tracking
directory, the already-installed count is at least one, and — because
`add_subscriptions` skips installed bundles when `find_all` is false — no
installed bundle is subscribed, so none of its manifests joins the
to-install set and nothing is staged or renamed on its behalf. -/
theorem C10_track_already_installed (env : InstallEnv) (s : Sys)
    (bundles : List String) (b : String) (hb : b ∈ bundles)
    (hinst : is_installed_bundle s b = true) :
    Ev.track b ∈ (install_bundles env s bundles).trace ∧
    b ∈ (install_bundles env s bundles).sys.tracked ∧
    1 ≤ (install_bundles env s bundles).already_installed ∧
    ∀ x ∈ (add_subscriptions env s env.fuel bundles [] false 0).2,
      is_installed_bundle s x = false := by
  obtain ⟨htrev, htrk, hcount⟩ := warn_fold_mem bundles (0, s, []) b hb hinst
  obtain ⟨pre, flag, ti, s2, tr2, hform, hs2, d, htr2⟩ :=
    install_bundles_out_form env s bundles
  refine ⟨?_, ?_, ?_, ?_⟩
  · rw [hform, install_out_trace]
    obtain ⟨dq, hdq, _⟩ := out_fold_trace ti bundles (0, 0, s2, tr2)
    rw [hdq]
    refine List.mem_append_left _ ?_
    show Ev.track b ∈ tr2
    rw [htr2]
    exact List.mem_append_left _ htrev
  · rw [hform, install_out_sys]
    apply out_fold_tracked_mono
    show b ∈ s2.tracked
    rw [hs2]
    exact htrk
  · rw [hform, install_out_already]
    exact hcount
  · intro x hx
    by_contra hxi
    rw [Bool.not_eq_false] at hxi
    have hmem := addsub_not_added_installed env s env.fuel bundles [] 0 x hx hxi
    cases hmem

/-- C10 witness: requesting A and B with A installed; A is tracked and
reported, and the subscription list holds no installed bundle. -/
theorem C10_witness :
    "A" ∈ (["A", "B"] : List String) ∧
    is_installed_bundle sysInstalledA "A" = true ∧
    Ev.track "A" ∈
      (install_bundles installEnvPlain sysInstalledA ["A", "B"]).trace ∧
    "A" ∈ (install_bundles installEnvPlain sysInstalledA ["A", "B"]).sys.tracked ∧
    1 ≤ (install_bundles installEnvPlain sysInstalledA
      ["A", "B"]).already_installed ∧
    ∀ x ∈ (add_subscriptions installEnvPlain sysInstalledA
        installEnvPlain.fuel ["A", "B"] [] false 0).2,
      is_installed_bundle sysInstalledA x = false :=
  ⟨by decide, by decide,
    (C10_track_already_installed installEnvPlain sysInstalledA ["A", "B"] "A"
      (by decide) (by decide)).1,
    (C10_track_already_installed installEnvPlain sysInstalledA ["A", "B"] "A"
      (by decide) (by decide)).2.1,
    (C10_track_already_installed installEnvPlain sysInstalledA ["A", "B"] "A"
      (by decide) (by decide)).2.2.1,
    (C10_track_already_installed installEnvPlain sysInstalledA ["A", "B"] "A"
      (by decide) (by decide)).2.2.2⟩

/-! ### Helper lemmas: a run whose single bundle is already installed (C7) -/

/-- A run on `[B]` where B is in the MoM, already installed and already
tracked is a no-op apart from the `track_installed` open: `add_subscriptions`
skips the installed bundle, so no new subscription exists and the run exits
through line 817's `goto out` with `SWUPD_OK`, one already-installed
warning and an unchanged system. -/
theorem install_second_run (env : InstallEnv) (s : Sys) (B : String)
    (hfuel : 2 ≤ env.fuel)
    (href : (search_bundle_in_manifest env B).isSome = true)
    (hinst : is_installed_bundle s B = true)
    (htrk : s.tracked.contains B = true) :
    install_bundles env s [B] =
      ⟨SWUPD_OK, SWUPD_OK, s, [Ev.track B], 1, 0, 0, 0⟩ := by
  obtain ⟨f, hf⟩ : ∃ f, env.fuel = f + 2 := ⟨env.fuel - 2, by omega⟩
  obtain ⟨ref, hrefeq⟩ := Option.isSome_iff_exists.mp href
  have hne : s.tracked.isEmpty = false := by
    cases htl : s.tracked with
    | nil => rw [htl] at htrk; simp at htrk
    | cons a t => rfl
  have hw : track_installed s [] B = (s, [Ev.track B]) := by
    simp only [track_installed, hne, Bool.false_eq_true, if_false, htrk,
      if_true, List.nil_append]
  have ha : add_subscriptions env s env.fuel [B] [] false 0 = ({}, []) := by
    rw [hf]
    show add_subscriptions env s (f + 1 + 1) [B] [] false 0 = ({}, [])
    simp only [add_subscriptions, hrefeq, hinst, Bool.false_eq_true,
      not_false_iff, true_and, and_true, if_true]
  have hwl : ([B] : List String).foldl warnStep (0, s, ([] : List Ev)) =
      (1, s, [Ev.track B]) := by
    simp only [List.foldl_cons, List.foldl_nil, warnStep, hinst, if_true]
    rw [hw]
  simp only [install_bundles, ha, hwl]
  rfl

/-- C7: install is idempotent.  When the first `install(B)` run left B
installed and tracked (as a successful install does) and B is in the MoM, the
second run leaves the system state exactly as the first run left it, stages
and renames nothing (its only trace event is the `track_installed` open of
the warning loop), reports B once as already installed, and returns
`SWUPD_OK`: the second run's `add_subscriptions` skips the installed bundle,
so no new subscription exists and the run exits through bundle.c line 817. -/
theorem C7_install_idempotent (env : InstallEnv) (s : Sys) (B : String)
    (hfuel : 2 ≤ env.fuel)
    (href : (search_bundle_in_manifest env B).isSome = true)
    (hinst : is_installed_bundle (install_bundles env s [B]).sys B = true)
    (htrk : (install_bundles env s [B]).sys.tracked.contains B = true) :
    (install_bundles env (install_bundles env s [B]).sys [B]).sys =
      (install_bundles env s [B]).sys ∧
    (install_bundles env (install_bundles env s [B]).sys [B]).code =
      SWUPD_OK ∧
    (install_bundles env (install_bundles env s [B]).sys [B]).already_installed = 1 ∧
    (install_bundles env (install_bundles env s [B]).sys [B]).trace =
      [Ev.track B] ∧
    ∀ e ∈ (install_bundles env (install_bundles env s [B]).sys [B]).trace,
      isStage e = false ∧ isRename e = false := by
  have h := install_second_run env (install_bundles env s [B]).sys B hfuel
    href hinst htrk
  rw [h]
  refine ⟨rfl, rfl, rfl, rfl, ?_⟩
  intro e he
  rcases List.mem_singleton.mp he with rfl
  exact ⟨rfl, rfl⟩

/-- C7 witness: install B twice from the empty system with ample disk; the
first run installs and tracks B, the second is the tracked no-op. -/
theorem C7_witness :
    2 ≤ installEnvPlain.fuel ∧
    (search_bundle_in_manifest installEnvPlain "B").isSome = true ∧
    (install_bundles installEnvPlain
        (install_bundles installEnvPlain sysEmpty ["B"]).sys ["B"]).sys =
      (install_bundles installEnvPlain sysEmpty ["B"]).sys ∧
    (install_bundles installEnvPlain
        (install_bundles installEnvPlain sysEmpty ["B"]).sys ["B"]).code =
      SWUPD_OK ∧
    (install_bundles installEnvPlain
        (install_bundles installEnvPlain sysEmpty ["B"]).sys ["B"]).already_installed = 1 ∧
    (install_bundles installEnvPlain
        (install_bundles installEnvPlain sysEmpty ["B"]).sys ["B"]).trace =
      [Ev.track "B"] :=
  ⟨by decide, by decide,
    (C7_install_idempotent installEnvPlain sysEmpty "B" (by decide) (by decide)
      (by decide) (by decide)).1,
    (C7_install_idempotent installEnvPlain sysEmpty "B" (by decide) (by decide)
      (by decide) (by decide)).2.1,
    (C7_install_idempotent installEnvPlain sysEmpty "B" (by decide) (by decide)
      (by decide) (by decide)).2.2.1,
    (C7_install_idempotent installEnvPlain sysEmpty "B" (by decide) (by decide)
      (by decide) (by decide)).2.2.2.1⟩

/-! ### Helper lemmas: the disk-space gate (C6) -/

theorem install_out_code_ne_disk (bundles : List String)
    (to_install : List Manifest) (pre : SwupdCode) (flag : Bool)
    (already : Nat) (s : Sys) (tr : List Ev)
    (hpre : pre ≠ SWUPD_DISK_SPACE_ERROR) :
    (install_out bundles to_install pre flag already s tr).code ≠
      SWUPD_DISK_SPACE_ERROR := by
  rw [install_out_code]
  split
  · decide
  · exact hpre

/-- C6 counterexample: installing A and B with A already installed and only 5
bytes free.  B's contentsize is 10, so the admission test fails and the run
exits with `SWUPD_DISK_SPACE_ERROR` — but the warning loop has already
created A's tracking file (one `track` event, `tracked` grew from `[]` to
`["A"]`), so the failed operation did mutate the filesystem. -/
theorem C6_counterexample :
    (install_bundles installEnvDisk sysInstalledA ["A", "B"]).code =
      SWUPD_DISK_SPACE_ERROR ∧
    (install_bundles installEnvDisk sysInstalledA ["A", "B"]).trace =
      [Ev.track "A"] ∧
    (install_bundles installEnvDisk sysInstalledA ["A", "B"]).sys.tracked =
      ["A"] ∧
    sysInstalledA.tracked = [] :=
  ⟨by decide, by decide, by decide, rfl⟩

/-- C6 (amended): with the disk-space check enabled, the run fails with
`SWUPD_DISK_SPACE_ERROR` exactly when the admission test — required space
1.1 × Σ contentsize over the to-install manifests against the queried free
space, failing also when the query returned a negative value — rejects the
plan; on that failure neither the target tree nor the staging area is
touched, but the trace may still hold `track` events (tracking files of
already-installed requested bundles are created before the check runs).
With the operator override the check is skipped and the code is never
`SWUPD_DISK_SPACE_ERROR`.  Stated at any run that reaches the check: a new
subscription was made and both manifest recursions succeed. -/
theorem C6_disk_check (env : InstallEnv) (s : Sys) (bundles : List String)
    (ti ib : List Manifest)
    (hnew : (add_subscriptions env s env.fuel bundles [] false 0).1.new = true)
    (hti : recurse_manifest env
      (add_subscriptions env s env.fuel bundles [] false 0).2 = some ti)
    (hib : recurse_manifest env
      (read_subscriptions env (bundles.foldl warnStep (0, s, [])).2.1) =
        some ib) :
    (env.skip_diskspace_check = true →
      (install_bundles env s bundles).code ≠ SWUPD_DISK_SPACE_ERROR) ∧
    (env.skip_diskspace_check = false →
      (((install_bundles env s bundles).code = SWUPD_DISK_SPACE_ERROR) ↔
        disk_space_insufficient (get_manifest_list_contentsize ti)
          env.fs_free = true) ∧
      (disk_space_insufficient (get_manifest_list_contentsize ti)
          env.fs_free = true →
        (install_bundles env s bundles).sys.target = s.target ∧
        (install_bundles env s bundles).sys.staged = s.staged ∧
        ∀ e ∈ (install_bundles env s bundles).trace, isTrack e = true)) := by
  have hmain :
      (env.skip_diskspace_check = false ∧
        disk_space_insufficient (get_manifest_list_contentsize ti)
          env.fs_free = true →
        install_bundles env s bundles =
          install_out bundles ti SWUPD_DISK_SPACE_ERROR
            (add_subscriptions env s env.fuel bundles [] false 0).1.badname
            (bundles.foldl warnStep (0, s, [])).1
            (bundles.foldl warnStep (0, s, [])).2.1
            (bundles.foldl warnStep (0, s, [])).2.2) ∧
      (¬ (env.skip_diskspace_check = false ∧
        disk_space_insufficient (get_manifest_list_contentsize ti)
          env.fs_free = true) →
        (install_bundles env s bundles).code ≠ SWUPD_DISK_SPACE_ERROR) := by
    constructor
    · rintro ⟨hskip, hins⟩
      simp only [install_bundles]
      split
      · next hcond => exact absurd hnew hcond
      · simp only [hti, hib]
        split
        · rfl
        · next hcond =>
          exact absurd ⟨by simp [hskip], hins⟩ hcond
    · intro hnot
      simp only [install_bundles]
      split
      · next hcond => exact absurd hnew hcond
      · simp only [hti, hib]
        split
        · next hcond =>
          exact absurd ⟨Bool.eq_false_iff.mpr hcond.1, hcond.2⟩ hnot
        · split
          · exact install_out_code_ne_disk _ _ _ _ _ _ _ (by decide)
          · split
            · exact install_out_code_ne_disk _ _ _ _ _ _ _ (by decide)
            · exact install_out_code_ne_disk _ _ _ _ _ _ _ (by decide)
  refine ⟨?_, ?_⟩
  · intro hskip
    apply hmain.2
    rintro ⟨hf, _⟩
    rw [hskip] at hf
    cases hf
  · intro hskip
    refine ⟨⟨?_, ?_⟩, ?_⟩
    · intro hcode
      by_contra hins
      exact hmain.2 (fun hc => hins hc.2) hcode
    · intro hins
      rw [hmain.1 ⟨hskip, hins⟩, install_out_code,
        if_neg (fun hc => absurd hc.2 (by decide))]
    · intro hins
      rw [hmain.1 ⟨hskip, hins⟩]
      refine ⟨?_, ?_, ?_⟩
      · rw [install_out_sys, out_fold_target]
        exact warn_fold_target bundles (0, s, [])
      · rw [install_out_sys, out_fold_staged]
        exact warn_fold_staged bundles (0, s, [])
      · rw [install_out_trace]
        obtain ⟨dq, hdq, hallq⟩ := out_fold_trace ti bundles
          (0, 0, (bundles.foldl warnStep (0, s, [])).2.1,
            (bundles.foldl warnStep (0, s, [])).2.2)
        obtain ⟨dw, hdw, hallw⟩ := warn_fold_trace bundles (0, s, [])
        rw [List.nil_append] at hdw
        intro e he
        rw [hdq] at he
        rcases List.mem_append.mp he with he | he
        · have he' : e ∈ (bundles.foldl warnStep (0, s, [])).2.2 := he
          rw [hdw] at he'
          obtain ⟨b, rfl, _⟩ := hallw e he'
          rfl
        · obtain ⟨b, rfl⟩ := hallq e he
          rfl

/-- C6 witness: the amended theorem at the counterexample's environment.  The
to-install set is `[manifestB]` (A is installed, so only B is newly
subscribed), the installed set recursion gives `[manifestA]`. -/
theorem C6_witness :
    (installEnvDisk.skip_diskspace_check = true →
      (install_bundles installEnvDisk sysInstalledA ["A", "B"]).code ≠
        SWUPD_DISK_SPACE_ERROR) ∧
    (installEnvDisk.skip_diskspace_check = false →
      (((install_bundles installEnvDisk sysInstalledA ["A", "B"]).code =
          SWUPD_DISK_SPACE_ERROR) ↔
        disk_space_insufficient (get_manifest_list_contentsize [manifestB])
          installEnvDisk.fs_free = true) ∧
      (disk_space_insufficient (get_manifest_list_contentsize [manifestB])
          installEnvDisk.fs_free = true →
        (install_bundles installEnvDisk sysInstalledA ["A", "B"]).sys.target =
          sysInstalledA.target ∧
        (install_bundles installEnvDisk sysInstalledA ["A", "B"]).sys.staged =
          sysInstalledA.staged ∧
        ∀ e ∈ (install_bundles installEnvDisk sysInstalledA ["A", "B"]).trace,
          isTrack e = true)) :=
  C6_disk_check installEnvDisk sysInstalledA ["A", "B"] [manifestB] [manifestA]
    (by decide) (by decide) (by decide)

/-- C8 witness: the amended theorem applied to B's plan with a corrupt
staged copy of `hb`. -/
theorem C8_witness :
    (∀ f ∈ manifestB.files, ∀ e ∈ sysCorruptStage.staged,
      e.hash = f.hash → e.good = false →
      e ∉ (preflight_hash_check manifestB.files sysCorruptStage []).1.staged ∧
      Ev.unlinkStaged f.hash ∈
        (preflight_hash_check manifestB.files sysCorruptStage []).2) ∧
    (∀ e ∈ sysCorruptStage.staged, e.good = true →
      e ∈ (preflight_hash_check manifestB.files sysCorruptStage []).1.staged) ∧
    (∀ e ∈ sysCorruptStage.staged,
      (∀ f ∈ manifestB.files, f.hash ≠ e.hash) →
      e ∈ (preflight_hash_check manifestB.files sysCorruptStage []).1.staged) ∧
    (∀ (env : InstallEnv) (s' : Sys) (bs : List String),
      ∃ v1 v2, (install_bundles env s' bs).trace = v1 ++ v2 ∧
        (∀ e ∈ v1, isUnlinkStaged e = false) ∧ (∀ e ∈ v2, isFetch e = false)) :=
  C8_preflight_unlink manifestB.files sysCorruptStage [] (by decide)

end Swupd
